import Mathlib

/-!
Shallow embedding of the sbd_lib crate (Iridium short-burst-data codec).

Bytes are modelled as natural numbers; byte streams as lists.  Readers are
state-passing functions over the remaining input, writers are state-passing
functions over a sink that records the bytes written so far and may carry a
capacity after which writes fail with an io error (modelling a fallible
io Write sink).  The sink state survives an error, mirroring writing
through a mutable reference in the source.
-/

set_option maxRecDepth 8192

namespace SbdLib

/-- Error type of the library, mirroring the Error enum of src/src/errors.rs
together with the twoLocations variant used by Message::create in
src/src/sbd_message.rs.  All io failures are collapsed into the io case. -/
inductive Error where
  | io
  | invalidProtocolRevisionNumber (n : Nat)
  | invalidInformationElementIdentifier (n : Nat)
  | negativeTimestamp (t : Int)
  | overallMessageLength (n : Nat)
  | payloadTooLong (n : Nat)
  | noHeader
  | noPayload
  | twoHeaders
  | twoPayloads
  | twoLocations
  | unknownSessionStatus (n : Nat)
  deriving DecidableEq, Repr

instance {ε α : Type} [DecidableEq ε] [DecidableEq α] : DecidableEq (Except ε α) :=
  fun a b =>
    match a, b with
    | .ok x, .ok y =>
      if h : x = y then .isTrue (by rw [h]) else .isFalse (by simp [h])
    | .error x, .error y =>
      if h : x = y then .isTrue (by rw [h]) else .isFalse (by simp [h])
    | .ok _, .error _ => .isFalse (by simp)
    | .error _, .ok _ => .isFalse (by simp)

/-- Byte sink: bytes written so far, plus an optional capacity after which
writes fail (none means the sink never fails). -/
structure Sink where
  buf : List Nat
  cap : Option Nat
  deriving DecidableEq, Repr

/-- Writer monad: state passing over a Sink; the sink state survives errors. -/
def WM (α : Type) : Type := Sink → Except Error α × Sink

def WM.pure (a : α) : WM α := fun s => (.ok a, s)

def WM.bind (x : WM α) (f : α → WM β) : WM β := fun s =>
  match x s with
  | (.ok a, s1) => f a s1
  | (.error e, s1) => (.error e, s1)

instance : Monad WM where
  pure := WM.pure
  bind := WM.bind

/-- Raise an error, leaving the sink unchanged. -/
def WM.throw (e : Error) : WM α := fun s => (.error e, s)

/-- Write a run of bytes to the sink in one call (io Write::write_all);
fails with io when a capacity would be exceeded, leaving the sink unchanged. -/
def writeAll (bs : List Nat) : WM Unit := fun s =>
  match s.cap with
  | none => (.ok (), ⟨s.buf ++ bs, none⟩)
  | some c =>
    if s.buf.length + bs.length ≤ c then (.ok (), ⟨s.buf ++ bs, some c⟩)
    else (.error .io, s)

/-- Big-endian bytes of an unsigned 16-bit value. -/
def u16Bytes (n : Nat) : List Nat := [n / 256 % 256, n % 256]

/-- Big-endian bytes of an unsigned 32-bit value. -/
def u32Bytes (n : Nat) : List Nat :=
  [n / 16777216 % 256, n / 65536 % 256, n / 256 % 256, n % 256]

/-- Big-endian two's-complement bytes of a signed 16-bit value. -/
def i16Bytes (v : Int) : List Nat := u16Bytes (v % 65536).toNat

def writeU8 (n : Nat) : WM Unit := writeAll [n % 256]

def writeU16 (n : Nat) : WM Unit := writeAll (u16Bytes n)

def writeU32 (n : Nat) : WM Unit := writeAll (u32Bytes n)

def writeI16 (v : Int) : WM Unit := writeAll (i16Bytes v)

/-- Reader monad: state passing over the remaining bytes of the stream. -/
def RM (α : Type) : Type := List Nat → Except Error (α × List Nat)

def RM.pure (a : α) : RM α := fun bs => .ok (a, bs)

def RM.bind (x : RM α) (f : α → RM β) : RM β := fun bs =>
  match x bs with
  | .ok (a, rest) => f a rest
  | .error e => .error e

instance : Monad RM where
  pure := RM.pure
  bind := RM.bind

def RM.throw (e : Error) : RM α := fun _ => .error e

/-- Lift a pure Except computation into the reader, not touching the stream. -/
def RM.ofExcept (x : Except Error α) : RM α := fun bs => x.map (fun a => (a, bs))

/-- Read exactly n bytes (read_exact): fails with an io error when fewer remain. -/
def readExact (n : Nat) : RM (List Nat) := fun bs =>
  if n ≤ bs.length then .ok (bs.take n, bs.drop n) else .error .io

/-- Combine big-endian bytes into a natural number. -/
def beCombine (bs : List Nat) : Nat := bs.foldl (fun a b => a * 256 + b) 0

/-- Read one byte; io error on an exhausted stream. -/
def readU8 : RM Nat := fun bs =>
  match bs with
  | [] => .error .io
  | b :: rest => .ok (b, rest)

def readU16 : RM Nat := do
  let bs ← readExact 2
  pure (beCombine bs)

def readU32 : RM Nat := do
  let bs ← readExact 4
  pure (beCombine bs)

/-- Read a big-endian signed 16-bit value (two's complement). -/
def readI16 : RM Int := do
  let n ← readU16
  pure (if 32768 ≤ n then (n : Int) - 65536 else (n : Int))

namespace mo

/-- Modelled from the spec: the file src/src/mo/session_status.rs is referenced by
src/src/mo/mod.rs but is not present under src/.  Per spec section 4.2 the
session-status byte is validated against a closed enumeration, with values
outside the known set failing with the unknown-session-status error; the code
values follow the DirectIP session-status table the library documents. -/
inductive SessionStatus where
  | ok
  | okMobileTerminatedTooLarge
  | okLocationUnacceptableQuality
  | timeout
  | mobileOriginatedTooLarge
  | rfLinkLoss
  | imeiProtocolAnomaly
  | prohibited
  deriving DecidableEq, Repr

/-- Wire code of a session status (the session_status as u8 cast on encode). -/
def SessionStatus.toU8 : SessionStatus → Nat
  | .ok => 0
  | .okMobileTerminatedTooLarge => 1
  | .okLocationUnacceptableQuality => 2
  | .timeout => 10
  | .mobileOriginatedTooLarge => 12
  | .rfLinkLoss => 13
  | .imeiProtocolAnomaly => 14
  | .prohibited => 15

/-- Modelled from the spec: validation of the session-status byte against the
closed enumeration, failing with the unknown-session-status error otherwise. -/
def SessionStatus.new (n : Nat) : Except Error SessionStatus :=
  if n = 0 then .ok .ok
  else if n = 1 then .ok .okMobileTerminatedTooLarge
  else if n = 2 then .ok .okLocationUnacceptableQuality
  else if n = 10 then .ok .timeout
  else if n = 12 then .ok .mobileOriginatedTooLarge
  else if n = 13 then .ok .rfLinkLoss
  else if n = 14 then .ok .imeiProtocolAnomaly
  else if n = 15 then .ok .prohibited
  else .error (.unknownSessionStatus n)

/-- Mobile-originated header (src/src/mo/header.rs).  The time of session is
modelled as its unix timestamp in seconds (an i64 in the source). -/
structure Header where
  auto_id : Nat
  imei : List Nat
  session_status : SessionStatus
  momsn : Nat
  mtmsn : Nat
  time_of_session : Int
  deriving DecidableEq, Repr

/-- MO header encoder (mo/header.rs write_to): tag 0x01, fixed length 28, fields
big-endian; fails with the negative-timestamp error when the timestamp is
negative, after the earlier fields have already been written. -/
def Header.write_to (h : Header) : WM Unit := do
  writeU8 1
  writeU16 28
  writeU32 h.auto_id
  writeAll h.imei
  writeU8 h.session_status.toU8
  writeU16 h.momsn
  writeU16 h.mtmsn
  if h.time_of_session < 0 then WM.throw (.negativeTimestamp h.time_of_session)
  else writeU32 h.time_of_session.toNat

/-- MO header decoder (mo/header.rs read_from); the body after the dispatcher
has consumed tag and length. -/
def Header.read_from : RM Header := do
  let auto_id ← readU32
  let imei ← readExact 15
  let sb ← readU8
  let session_status ← RM.ofExcept (SessionStatus.new sb)
  let momsn ← readU16
  let mtmsn ← readU16
  let t ← readU32
  RM.pure { auto_id := auto_id, imei := imei, session_status := session_status,
            momsn := momsn, mtmsn := mtmsn, time_of_session := (t : Int) }

/-- Encoded size of an MO header including its tag and length prefix. -/
def Header.len (_ : Header) : Nat := 31

/-- Mobile-originated confirmation status (src/src/mo/confirmation_status.rs). -/
structure ConfirmationStatus where
  status : Bool
  deriving DecidableEq, Repr

/-- MO confirmation-status decoder: a single byte, true exactly when it is 1. -/
def ConfirmationStatus.read_from : RM ConfirmationStatus := do
  let b ← readU8
  RM.pure { status := b = 1 }

/-- MO confirmation-status encoder, exactly as in the source: it writes only
the status byte (the status as u8 cast), with no tag or length prefix. -/
def ConfirmationStatus.write_to (c : ConfirmationStatus) : WM Unit :=
  writeU8 (if c.status then 1 else 0)

/-- Declared encoded size of an MO confirmation status. -/
def ConfirmationStatus.len (_ : ConfirmationStatus) : Nat := 4

/-- Compass quadrant of a location (src/src/mo/location_information.rs). -/
inductive LocationDirection where
  | NE
  | NW
  | SE
  | SW
  deriving DecidableEq, Repr

/-- Decode of the flags byte (the From u8 impl): an exact match on the whole
byte value, with every value other than 0x40, 0x80, 0xC0 mapping to NE. -/
def LocationDirection.fromU8 (flag : Nat) : LocationDirection :=
  if flag = 0x40 then .SE
  else if flag = 0x80 then .NW
  else if flag = 0xC0 then .SW
  else .NE

/-- Encode of a direction into the flags byte (the From LocationDirection impl). -/
def LocationDirection.toU8 : LocationDirection → Nat
  | .NE => 0
  | .SE => 0x40
  | .NW => 0x80
  | .SW => 0xC0

/-- Location sub-record: direction quadrant, latitude and longitude as
(degrees, minutes times ten thousand), optional radius. -/
structure LocationInformation where
  direction : LocationDirection
  latitude : Nat × Nat
  longitude : Nat × Nat
  radius : Option Nat
  deriving DecidableEq, Repr

/-- Constructor used by the decoder: the direction comes from the flags byte. -/
def LocationInformation.new (flags : Nat) (latitude longitude : Nat × Nat)
    (radius : Option Nat) : LocationInformation :=
  { direction := LocationDirection.fromU8 flags,
    latitude := latitude, longitude := longitude, radius := radius }

/-- Encoded size including the 3-byte tag and length prefix: 10 without the
radius, 14 with it. -/
def LocationInformation.len (l : LocationInformation) : Nat :=
  match l.radius with
  | none => 10
  | some _ => 14

/-- Location encoder (location_information.rs write_to): tag 0x03, body length
(len minus 3), direction byte, latitude pair, longitude pair, optional radius. -/
def LocationInformation.write_to (l : LocationInformation) : WM Unit := do
  writeU8 3
  writeU16 (l.len - 3)
  writeU8 l.direction.toU8
  writeU8 l.latitude.1
  writeU16 l.latitude.2
  writeU8 l.longitude.1
  writeU16 l.longitude.2
  match l.radius with
  | some r => writeU32 r
  | none => WM.pure ()

end mo

namespace mt

/-- Mobile-terminated header (src/src/mt/header.rs). -/
structure Header where
  message_id : Nat
  imei : List Nat
  flags : Nat
  deriving DecidableEq, Repr

/-- MT header encoder: tag 0x41, fixed length 21, fields big-endian. -/
def Header.write_to (h : Header) : WM Unit := do
  writeU8 0x41
  writeU16 21
  writeU32 h.message_id
  writeAll h.imei
  writeU16 h.flags

/-- MT header decoder (body after tag and length). -/
def Header.read_from : RM Header := do
  let message_id ← readU32
  let imei ← readExact 15
  let flags ← readU16
  RM.pure { message_id := message_id, imei := imei, flags := flags }

/-- Encoded size of an MT header including its tag and length prefix. -/
def Header.len (_ : Header) : Nat := 24

/-- Mobile-terminated confirmation status (src/src/mt/confirmation_status.rs). -/
structure ConfirmationStatus where
  message_id : Nat
  imei : List Nat
  auto_id : Nat
  status : Int
  deriving DecidableEq, Repr

/-- MT confirmation-status decoder (body after tag and length). -/
def ConfirmationStatus.read_from : RM ConfirmationStatus := do
  let message_id ← readU32
  let imei ← readExact 15
  let auto_id ← readU32
  let status ← readI16
  RM.pure { message_id := message_id, imei := imei, auto_id := auto_id, status := status }

/-- MT confirmation-status encoder: tag 0x44, fixed length 25, then the body. -/
def ConfirmationStatus.write_to (c : ConfirmationStatus) : WM Unit := do
  writeU8 0x44
  writeU16 25
  writeU32 c.message_id
  writeAll c.imei
  writeU32 c.auto_id
  writeI16 c.status

/-- Encoded size of an MT confirmation status including tag and length. -/
def ConfirmationStatus.len (_ : ConfirmationStatus) : Nat := 28

end mt

/-- A mobile-originated or mobile-terminated header
(src/src/information_element.rs). -/
inductive Header where
  | moHeader (h : mo.Header)
  | mtHeader (h : mt.Header)
  deriving DecidableEq, Repr

def Header.write_to : Header → WM Unit
  | .moHeader h => h.write_to
  | .mtHeader h => h.write_to

def Header.len : Header → Nat
  | .moHeader h => h.len
  | .mtHeader h => h.len

/-- A mobile-originated or mobile-terminated confirmation status. -/
inductive Status where
  | moStatus (s : mo.ConfirmationStatus)
  | mtStatus (s : mt.ConfirmationStatus)
  deriving DecidableEq, Repr

def Status.write_to : Status → WM Unit
  | .moStatus s => s.write_to
  | .mtStatus s => s.write_to

def Status.len : Status → Nat
  | .moStatus s => s.len
  | .mtStatus s => s.len

/-- An information element, the building block of an SBD message. -/
inductive InformationElement where
  | header (h : Header)
  | moPayload (p : List Nat)
  | mtPayload (p : List Nat)
  | status (s : Status)
  | locationInformation (l : mo.LocationInformation)
  deriving DecidableEq, Repr

namespace InformationElement

/-- Length of an information element including its tag and length prefix. -/
def len : InformationElement → Nat
  | .header h => h.len
  | .status s => s.len
  | .moPayload p => p.length + 3
  | .mtPayload p => p.length + 3
  | .locationInformation l => l.len

/-- Information-element encoder (information_element.rs write_to).  Payload
variants write their tag byte first, then check the 16-bit length bound
(failing with payload-too-long), then length and body. -/
def write_to : InformationElement → WM Unit
  | .header h => h.write_to
  | .status s => s.write_to
  | .moPayload p => do
      writeU8 2
      if 65535 < p.length then WM.throw (.payloadTooLong p.length)
      else do
        writeU16 p.length
        writeAll p
  | .mtPayload p => do
      writeU8 0x42
      if 65535 < p.length then WM.throw (.payloadTooLong p.length)
      else do
        writeU16 p.length
        writeAll p
  | .locationInformation l => l.write_to

/-- Radius field of a location body: read exactly when the declared element
length is 11, absent otherwise. -/
def readRadius (length : Nat) : RM (Option Nat) :=
  if length = 11 then do
    let r ← readU32
    RM.pure (some r)
  else RM.pure none

/-- Inner decode of a location body of declared length, over its own bounded
buffer (the Cursor over the body bytes). -/
def locFromBody (length : Nat) : RM InformationElement := do
  let flags ← readU8
  let latd ← readU8
  let latm ← readU16
  let lond ← readU8
  let lonm ← readU16
  let radius ← readRadius length
  RM.pure (InformationElement.locationInformation
    (mo.LocationInformation.new flags (latd, latm) (lond, lonm) radius))

/-- Information-element dispatcher (information_element.rs read_single): one
tag byte, one big-endian 16-bit length, then dispatch on the tag. -/
def read_single : RM InformationElement := do
  let iei ← readU8
  let length ← readU16
  if iei = 0x1 then do
    let h ← mo.Header.read_from
    RM.pure (.header (.moHeader h))
  else if iei = 0x41 then do
    let h ← mt.Header.read_from
    RM.pure (.header (.mtHeader h))
  else if iei = 0x2 ∨ iei = 0x42 then do
    let payload ← readExact length
    RM.pure (if iei = 0x2 then .moPayload payload else .mtPayload payload)
  else if iei = 0x3 then do
    let body ← readExact length
    RM.ofExcept ((locFromBody length body).map Prod.fst)
  else if iei = 0x44 then do
    let s ← mt.ConfirmationStatus.read_from
    RM.pure (.status (.mtStatus s))
  else if iei = 0x5 then do
    let s ← mo.ConfirmationStatus.read_from
    RM.pure (.status (.moStatus s))
  else RM.throw (.invalidInformationElementIdentifier iei)

end InformationElement

/-- A reader never lengthens the stream: on success the remaining bytes are no
more than the input bytes. -/
def RM.Shrinks (x : RM α) : Prop :=
  ∀ bs a rest, x bs = .ok (a, rest) → rest.length ≤ bs.length

/-- A reader strictly consumes: on success the remaining bytes are strictly
fewer than the input bytes. -/
def RM.Consumes (x : RM α) : Prop :=
  ∀ bs a rest, x bs = .ok (a, rest) → rest.length < bs.length

/-- Parse loop over the bounded message buffer, bounded by a fuel argument so
that it is structurally recursive; the fuel is an embedding artifact and the
out-of-fuel branch is unreachable whenever the fuel is at least the buffer
length, since a successful dispatch always consumes at least the tag byte
(readLoopFuel_irrelevant below). -/
def readLoopFuel : Nat → List Nat → Except Error (List InformationElement)
  | _, [] => .ok []
  | 0, _ :: _ => .error .io
  | fuel + 1, b :: tl =>
    match InformationElement.read_single (b :: tl) with
    | .error e => .error e
    | .ok (ie, rest) =>
      match readLoopFuel fuel rest with
      | .error e => .error e
      | .ok ies => .ok (ie :: ies)

/-- Parse loop over the bounded message buffer (the while loop of
information_element.rs parse): repeatedly dispatch until the buffer is
exhausted; any element error aborts the loop. -/
def readLoop (bs : List Nat) : Except Error (List InformationElement) :=
  readLoopFuel bs.length bs

/-- Top-level parse (information_element.rs parse): protocol revision byte
(must be 1), big-endian overall length, exactly that many bytes into a bounded
buffer, then the dispatcher loop over that buffer. -/
def InformationElement.parse : RM (List InformationElement) := do
  let rev ← readU8
  if rev ≠ 1 then RM.throw (.invalidProtocolRevisionNumber rev)
  else do
    let overall ← readU16
    let body ← readExact overall
    RM.ofExcept (readLoop body)

/-- An Iridium SBD message (src/src/sbd_message.rs). -/
structure Message where
  header : Header
  payload : List Nat
  location : Option mo.LocationInformation
  information_elements : List InformationElement
  deriving DecidableEq, Repr

namespace Message

def new (header : Header) (payload : List Nat)
    (location : Option mo.LocationInformation)
    (ie : List InformationElement) : Message :=
  { header := header, payload := payload, location := location,
    information_elements := ie }

/-- Overall message length with the 3-byte outer frame (Message::length). -/
def length (m : Message) : Nat :=
  m.header.len + m.payload.length + 1 + 2
    + (match m.location with
       | some l => l.len
       | none => 0)
    + (m.information_elements.map (fun ie => ie.len)).sum
    + 3

/-- Accumulating loop of Message::create over the information elements, with
the four slots header, payload, location and other. -/
def createAux : Option Header → Option (List Nat) → Option mo.LocationInformation →
    List InformationElement → List InformationElement → Except Error Message
  | hdr, pay, loc, acc, [] =>
    match hdr with
    | none => .error .noHeader
    | some h =>
      match pay with
      | none => .error .noPayload
      | some p => .ok (Message.new h p loc acc)
  | hdr, pay, loc, acc, ie :: rest =>
    match ie with
    | .header h =>
      match hdr with
      | some _ => .error .twoHeaders
      | none => createAux (some h) pay loc acc rest
    | .moPayload p =>
      match pay with
      | some _ => .error .twoPayloads
      | none => createAux hdr (some p) loc acc rest
    | .mtPayload p =>
      match pay with
      | some _ => .error .twoPayloads
      | none => createAux hdr (some p) loc acc rest
    | .locationInformation l =>
      match loc with
      | some _ => .error .twoLocations
      | none => createAux hdr pay (some l) acc rest
    | ie => createAux hdr pay loc (acc ++ [ie]) rest

/-- Message assembly from a sequence of information elements
(Message::create). -/
def create (ies : List InformationElement) : Except Error Message :=
  createAux none none none [] ies

/-- Sequential write of the leftover information elements (the for loop at the
end of Message::write_to). -/
def writeIEList : List InformationElement → WM Unit
  | [] => WM.pure ()
  | ie :: rest => do
      ie.write_to
      writeIEList rest

/-- Run a writer and discard its result while keeping the sink state: mirrors
the statement self.location.and_then with the write result turned into an
Option and dropped, so an error from the location write is swallowed. -/
def WM.discard (w : WM Unit) : WM Unit := fun s => (.ok (), (w s).2)

/-- Message encoder (Message::write_to): the payload information element is
rebuilt from the header variant, the overall length is checked against the
16-bit bound before anything is written, then frame, header, payload, the
optional location (its errors discarded) and the remaining elements. -/
def write_to (m : Message) : WM Unit :=
  let payload : InformationElement :=
    match m.header with
    | .moHeader _ => .moPayload m.payload
    | .mtHeader _ => .mtPayload m.payload
  let overall := m.length - 3
  if 65535 < overall then WM.throw (.overallMessageLength overall)
  else do
    writeU8 1
    writeU16 overall
    m.header.write_to
    payload.write_to
    (match m.location with
     | some l => WM.discard l.write_to
     | none => WM.pure ())
    writeIEList m.information_elements

/-- Message decoder (Message::read_from): parse the information elements and
assemble them. -/
def read_from (bs : List Nat) : Except Error Message :=
  match InformationElement.parse bs with
  | .ok (ies, _) => create ies
  | .error e => .error e

end Message

/-- Bytes produced by writing a message to a fresh unbounded sink. -/
def encodeMessage (m : Message) : Except Error (List Nat) :=
  match m.write_to ⟨[], none⟩ with
  | (.ok _, s) => .ok s.buf
  | (.error e, _) => .error e

/-- Encode then decode: the round-trip of the spec. -/
def roundTrip (m : Message) : Except Error Message :=
  (encodeMessage m).bind Message.read_from

/-! Byte-level descriptions of the encoders, used to state and prove the
encode equations: each bytes function lists exactly the bytes the matching
write_to emits on a sink that does not fail. -/

/-- Bytes of an encoded MO header, including tag and length prefix. -/
def mo.Header.bytes (h : mo.Header) : List Nat :=
  1 :: u16Bytes 28 ++ u32Bytes h.auto_id ++ h.imei
    ++ h.session_status.toU8 :: u16Bytes h.momsn ++ u16Bytes h.mtmsn
    ++ u32Bytes h.time_of_session.toNat

/-- Bytes of an encoded MT header, including tag and length prefix. -/
def mt.Header.bytes (h : mt.Header) : List Nat :=
  0x41 :: u16Bytes 21 ++ u32Bytes h.message_id ++ h.imei ++ u16Bytes h.flags

def Header.bytes : Header → List Nat
  | .moHeader h => h.bytes
  | .mtHeader h => h.bytes

/-- Bytes of an encoded MT confirmation status, including tag and length. -/
def mt.ConfirmationStatus.bytes (c : mt.ConfirmationStatus) : List Nat :=
  0x44 :: u16Bytes 25 ++ u32Bytes c.message_id ++ c.imei
    ++ u32Bytes c.auto_id ++ i16Bytes c.status

/-- Bytes of an encoded MO confirmation status: only the status byte, with no
tag or length prefix, exactly as the source writes it. -/
def mo.ConfirmationStatus.bytes (c : mo.ConfirmationStatus) : List Nat :=
  [if c.status then 1 else 0]

def Status.bytes : Status → List Nat
  | .moStatus s => s.bytes
  | .mtStatus s => s.bytes

/-- Bytes of an encoded location element, including tag and length prefix;
the degree bytes are reduced modulo 256 as the byte writer does. -/
def mo.LocationInformation.bytes (l : mo.LocationInformation) : List Nat :=
  3 :: u16Bytes (l.len - 3)
    ++ l.direction.toU8 :: (l.latitude.1 % 256) :: u16Bytes l.latitude.2
    ++ (l.longitude.1 % 256) :: u16Bytes l.longitude.2
    ++ (match l.radius with
        | some r => u32Bytes r
        | none => [])

def InformationElement.bytes : InformationElement → List Nat
  | .header h => h.bytes
  | .moPayload p => 2 :: u16Bytes p.length ++ p
  | .mtPayload p => 0x42 :: u16Bytes p.length ++ p
  | .status s => s.bytes
  | .locationInformation l => l.bytes

def ieListBytes : List InformationElement → List Nat
  | [] => []
  | ie :: rest => ie.bytes ++ ieListBytes rest

/-- Wire tag of the payload element rebuilt by Message::write_to: derived only
from the header variant. -/
def payloadTag : Header → Nat
  | .moHeader _ => 2
  | .mtHeader _ => 0x42

/-- Bytes of an encoded message: outer frame (revision byte and overall
length), header element, payload element under the header's direction tag,
optional location element, remaining elements in order. -/
def Message.bytes (m : Message) : List Nat :=
  1 :: u16Bytes (m.length - 3)
    ++ m.header.bytes
    ++ payloadTag m.header :: u16Bytes m.payload.length ++ m.payload
    ++ (match m.location with
        | some l => l.bytes
        | none => [])
    ++ ieListBytes m.information_elements

/-! Well-formedness predicates: the numeric field bounds that the Rust types
enforce (u8, u16, u32, i16 fields, 15-byte identifiers, byte vectors). -/

def isByteList (bs : List Nat) : Prop := ∀ b ∈ bs, b < 256

def mo.Header.Wf (h : mo.Header) : Prop :=
  h.auto_id < 4294967296 ∧ h.imei.length = 15 ∧ isByteList h.imei
    ∧ h.momsn < 65536 ∧ h.mtmsn < 65536

def mt.Header.Wf (h : mt.Header) : Prop :=
  h.message_id < 4294967296 ∧ h.imei.length = 15 ∧ isByteList h.imei
    ∧ h.flags < 65536

def Header.Wf : Header → Prop
  | .moHeader h => h.Wf
  | .mtHeader h => h.Wf

/-- Timestamp condition under which an MO header encodes and decodes back to
itself: non-negative (the encoder's own check) and within the 32-bit wire
field (the encoder truncates larger values). -/
def Header.timeOk : Header → Prop
  | .moHeader h => 0 ≤ h.time_of_session ∧ h.time_of_session < 4294967296
  | .mtHeader _ => True

def mt.ConfirmationStatus.Wf (c : mt.ConfirmationStatus) : Prop :=
  c.message_id < 4294967296 ∧ c.imei.length = 15 ∧ isByteList c.imei
    ∧ c.auto_id < 4294967296 ∧ -32768 ≤ c.status ∧ c.status < 32768

def Status.Wf : Status → Prop
  | .moStatus _ => True
  | .mtStatus s => s.Wf

def mo.LocationInformation.Wf (l : mo.LocationInformation) : Prop :=
  l.latitude.1 < 256 ∧ l.latitude.2 < 65536
    ∧ l.longitude.1 < 256 ∧ l.longitude.2 < 65536
    ∧ (match l.radius with
       | some r => r < 4294967296
       | none => True)

def InformationElement.Wf : InformationElement → Prop
  | .header h => h.Wf
  | .moPayload p => isByteList p ∧ p.length < 65536
  | .mtPayload p => isByteList p ∧ p.length < 65536
  | .status s => s.Wf
  | .locationInformation l => l.Wf

/-- Condition under which InformationElement::write_to cannot itself raise a
non-io error: an MO header inside needs a non-negative timestamp, payloads
must fit the 16-bit length. -/
def InformationElement.WriteOk : InformationElement → Prop
  | .header (.moHeader h) => 0 ≤ h.time_of_session
  | .moPayload p => p.length ≤ 65535
  | .mtPayload p => p.length ≤ 65535
  | _ => True

/-- Is the element a confirmation status (the only kind that Message::create
collects into the leftover list)? -/
def InformationElement.isStatus : InformationElement → Prop
  | .status _ => True
  | _ => False

/-- Is the element an MT confirmation status? -/
def InformationElement.isMtStatus : InformationElement → Prop
  | .status (.mtStatus _) => True
  | _ => False

def Message.Wf (m : Message) : Prop :=
  m.header.Wf ∧ isByteList m.payload
    ∧ (match m.location with
       | some l => l.Wf
       | none => True)
    ∧ ∀ ie ∈ m.information_elements, ie.Wf

/-- Body bytes of an encoded location element (without tag and length). -/
def locBodyBytes (l : mo.LocationInformation) : List Nat :=
  l.direction.toU8 :: (l.latitude.1 % 256) :: u16Bytes l.latitude.2
    ++ (l.longitude.1 % 256) :: u16Bytes l.longitude.2
    ++ (match l.radius with
        | some r => u32Bytes r
        | none => [])

/-- The information-element sequence that an encoded message parses back
into: header element, payload element under the header's tag, optional
location element, then the leftover elements. -/
def Message.asIEs (m : Message) : List InformationElement :=
  .header m.header
    :: (match m.header with
        | .moHeader _ => InformationElement.moPayload m.payload
        | .mtHeader _ => InformationElement.mtPayload m.payload)
    :: ((match m.location with
         | some l => [InformationElement.locationInformation l]
         | none => []) ++ m.information_elements)

/-- A reader consumes exactly chunk producing a, for any continuation bytes. -/
def ReadsAt (r : RM α) (chunk : List Nat) (a : α) : Prop :=
  ∀ rest, r (chunk ++ rest) = .ok (a, rest)

instance (bs : List Nat) : Decidable (isByteList bs) := by
  unfold isByteList
  infer_instance

instance (h : mo.Header) : Decidable h.Wf := by
  unfold mo.Header.Wf
  infer_instance

instance (h : mt.Header) : Decidable h.Wf := by
  unfold mt.Header.Wf
  infer_instance

instance : (h : Header) → Decidable h.Wf
  | .moHeader x => inferInstanceAs (Decidable x.Wf)
  | .mtHeader x => inferInstanceAs (Decidable x.Wf)

instance : (h : Header) → Decidable h.timeOk
  | .moHeader _ => inferInstanceAs (Decidable (_ ∧ _))
  | .mtHeader _ => .isTrue trivial

instance (c : mt.ConfirmationStatus) : Decidable c.Wf := by
  unfold mt.ConfirmationStatus.Wf
  infer_instance

instance : (s : Status) → Decidable s.Wf
  | .moStatus _ => .isTrue trivial
  | .mtStatus c => inferInstanceAs (Decidable c.Wf)

instance (l : mo.LocationInformation) : Decidable l.Wf := by
  unfold mo.LocationInformation.Wf
  cases l.radius <;> infer_instance

instance : (ie : InformationElement) → Decidable ie.Wf
  | .header h => inferInstanceAs (Decidable h.Wf)
  | .moPayload _ => inferInstanceAs (Decidable (_ ∧ _))
  | .mtPayload _ => inferInstanceAs (Decidable (_ ∧ _))
  | .status s => inferInstanceAs (Decidable s.Wf)
  | .locationInformation l => inferInstanceAs (Decidable l.Wf)

instance : (ie : InformationElement) → Decidable ie.WriteOk
  | .header (.moHeader _) => inferInstanceAs (Decidable (_ ≤ _))
  | .header (.mtHeader _) => .isTrue trivial
  | .moPayload _ => inferInstanceAs (Decidable (_ ≤ _))
  | .mtPayload _ => inferInstanceAs (Decidable (_ ≤ _))
  | .status _ => .isTrue trivial
  | .locationInformation _ => .isTrue trivial

instance : (ie : InformationElement) → Decidable ie.isStatus
  | .header _ => .isFalse id
  | .moPayload _ => .isFalse id
  | .mtPayload _ => .isFalse id
  | .status _ => .isTrue trivial
  | .locationInformation _ => .isFalse id

instance : (ie : InformationElement) → Decidable ie.isMtStatus
  | .header _ => .isFalse id
  | .moPayload _ => .isFalse id
  | .mtPayload _ => .isFalse id
  | .status (.moStatus _) => .isFalse id
  | .status (.mtStatus _) => .isTrue trivial
  | .locationInformation _ => .isFalse id

instance (m : Message) : Decidable m.Wf := by
  unfold Message.Wf
  cases m.location <;> infer_instance

/-- A writer emits a fixed run of bytes: on any sink that does not fail it
succeeds and appends exactly those bytes. -/
def Emits (w : WM Unit) (out : List Nat) : Prop :=
  ∀ buf, w ⟨buf, none⟩ = (.ok (), ⟨buf ++ out, none⟩)

/-- Body size the dispatcher will try to consume for a recognized tag with
declared 16-bit length L: the fixed field sizes for headers and statuses, the
declared length for payloads and locations, none for unrecognized tags. -/
def requiredLen (iei L : Nat) : Option Nat :=
  if iei = 1 then some 28
  else if iei = 0x41 then some 21
  else if iei = 2 ∨ iei = 0x42 then some L
  else if iei = 3 then some L
  else if iei = 0x44 then some 25
  else if iei = 5 then some 1
  else none

/-- The result is one of the errors a truncated stream can produce: an io
error, or the unknown-session-status error when an MO header is cut off after
an invalid session-status byte has already been read. -/
def isTruncErr {α : Type} : Except Error α → Prop
  | .error .io => True
  | .error (.unknownSessionStatus _) => True
  | _ => False

/-! Concrete inputs used by the claim witnesses and counterexamples. -/

/-- A well-formed MO header with epoch-area timestamp. -/
def sampleMoHeader : mo.Header :=
  { auto_id := 1894516585,
    imei := [51, 48, 48, 50, 51, 52, 48, 54, 51, 57, 48, 52, 49, 57, 48],
    session_status := .ok, momsn := 75, mtmsn := 0,
    time_of_session := 1436465708 }

/-- A well-formed MT confirmation status. -/
def sampleMtStatus : mt.ConfirmationStatus :=
  { message_id := 287454020,
    imei := [51, 48, 48, 52, 51, 52, 48, 54, 48, 48, 48, 57, 50, 57, 48],
    auto_id := 3064195606, status := -3 }

/-- A well-formed MT header. -/
def sampleMtHeader : mt.Header :=
  { message_id := 7,
    imei := [51, 48, 48, 52, 51, 52, 48, 54, 48, 48, 48, 57, 50, 57, 48],
    flags := 3 }

/-- An MT-headed message used by the payload-tag witness. -/
def c10Message : Message := Message.new (.mtHeader sampleMtHeader) [7] none []

/-- A message satisfying every hypothesis of the round-trip theorem. -/
def sampleMessage : Message :=
  Message.new (.moHeader sampleMoHeader) [1, 2, 3]
    (some (mo.LocationInformation.new 0 (60, 5132) (29, 14176) (some 93)))
    [.status (.mtStatus sampleMtStatus)]

/-- An MO header whose timestamp is non-negative but does not fit the 32-bit
wire field. -/
def overflowHeader : mo.Header :=
  { sampleMoHeader with time_of_session := 4294967296 }

/-- A message whose header timestamp is non-negative and whose payload is
within the 16-bit bound, but whose timestamp does not fit the 32-bit wire
field. -/
def overflowMessage : Message :=
  Message.new (.moHeader overflowHeader) [] none []

/-- A message with a location, used to expose the discarded location write
result: its frame, header and payload take exactly 37 bytes. -/
def locMessage : Message :=
  Message.new (.moHeader { sampleMoHeader with time_of_session := 0 })
    [] (some (mo.LocationInformation.new 0 (60, 5132) (29, 14176) none)) []

/-- A message whose payload makes the post-frame total exceed 65535. -/
def hugeMessage : Message :=
  Message.new (.moHeader sampleMoHeader) (List.replicate 65533 0) none []

/-- An MO-header element truncated after an invalid session-status byte: tag
0x01, declared length 28, then only 20 body bytes whose last is 255. -/
def truncatedMoHeaderInput : List Nat :=
  [1, 0, 28, 0, 0, 0, 1] ++ List.replicate 15 48 ++ [255]

/-! Helper lemmas about the reader and writer monads. -/

@[simp] theorem wm_bind_eq (x : WM α) (f : α → WM β) : (x >>= f) = WM.bind x f := rfl

@[simp] theorem wm_pure_eq (a : α) : (Pure.pure a : WM α) = WM.pure a := rfl

@[simp] theorem rm_bind_eq (x : RM α) (f : α → RM β) : (x >>= f) = RM.bind x f := rfl

@[simp] theorem rm_pure_eq (a : α) : (Pure.pure a : RM α) = RM.pure a := rfl

theorem shrinks_bind {x : RM α} {f : α → RM β} (hx : RM.Shrinks x)
    (hf : ∀ a, RM.Shrinks (f a)) : RM.Shrinks (x >>= f) := by
  intro bs b rest h
  simp only [rm_bind_eq, RM.bind] at h
  cases hxbs : x bs with
  | ok p =>
    rw [hxbs] at h
    exact le_trans (hf p.1 p.2 b rest h) (hx bs p.1 p.2 hxbs)
  | error e => rw [hxbs] at h; cases h

theorem consumes_bind {x : RM α} {f : α → RM β} (hx : RM.Consumes x)
    (hf : ∀ a, RM.Shrinks (f a)) : RM.Consumes (x >>= f) := by
  intro bs b rest h
  simp only [rm_bind_eq, RM.bind] at h
  cases hxbs : x bs with
  | ok p =>
    rw [hxbs] at h
    exact lt_of_le_of_lt (hf p.1 p.2 b rest h) (hx bs p.1 p.2 hxbs)
  | error e => rw [hxbs] at h; cases h

theorem shrinks_pure (a : α) : RM.Shrinks (RM.pure a) := by
  intro bs b rest h
  simp only [RM.pure, Except.ok.injEq, Prod.mk.injEq] at h
  simp [h.2]

theorem shrinks_throw (e : Error) : RM.Shrinks (RM.throw e : RM α) := by
  intro bs b rest h
  cases h

theorem shrinks_ofExcept (x : Except Error α) : RM.Shrinks (RM.ofExcept x) := by
  intro bs b rest h
  cases x with
  | ok a => simp only [RM.ofExcept, Except.map, Except.ok.injEq, Prod.mk.injEq] at h; simp [h.2]
  | error e => cases h

theorem consumes_readU8 : RM.Consumes readU8 := by
  intro bs b rest h
  cases bs with
  | nil => cases h
  | cons x tl =>
    simp only [readU8, Except.ok.injEq, Prod.mk.injEq] at h
    simp [h.2]

theorem shrinks_readU8 : RM.Shrinks readU8 := by
  intro bs a rest h
  exact le_of_lt (consumes_readU8 bs a rest h)

theorem shrinks_readExact (n : Nat) : RM.Shrinks (readExact n) := by
  intro bs a rest h
  simp only [readExact] at h
  split at h
  · simp only [Except.ok.injEq, Prod.mk.injEq] at h
    rw [← h.2]
    simp [List.length_drop]
  · cases h

theorem shrinks_readU16 : RM.Shrinks readU16 :=
  shrinks_bind (shrinks_readExact 2) (fun _ => shrinks_pure _)

theorem shrinks_readU32 : RM.Shrinks readU32 :=
  shrinks_bind (shrinks_readExact 4) (fun _ => shrinks_pure _)

theorem shrinks_readI16 : RM.Shrinks readI16 :=
  shrinks_bind shrinks_readU16 (fun _ => shrinks_pure _)

theorem shrinks_mo_header : RM.Shrinks mo.Header.read_from := by
  unfold mo.Header.read_from
  refine shrinks_bind shrinks_readU32 (fun _ => ?_)
  refine shrinks_bind (shrinks_readExact 15) (fun _ => ?_)
  refine shrinks_bind shrinks_readU8 (fun _ => ?_)
  refine shrinks_bind (shrinks_ofExcept _) (fun _ => ?_)
  refine shrinks_bind shrinks_readU16 (fun _ => ?_)
  refine shrinks_bind shrinks_readU16 (fun _ => ?_)
  exact shrinks_bind shrinks_readU32 (fun _ => shrinks_pure _)

theorem shrinks_mt_header : RM.Shrinks mt.Header.read_from := by
  unfold mt.Header.read_from
  refine shrinks_bind shrinks_readU32 (fun _ => ?_)
  refine shrinks_bind (shrinks_readExact 15) (fun _ => ?_)
  exact shrinks_bind shrinks_readU16 (fun _ => shrinks_pure _)

theorem shrinks_mo_status : RM.Shrinks mo.ConfirmationStatus.read_from := by
  unfold mo.ConfirmationStatus.read_from
  exact shrinks_bind shrinks_readU8 (fun _ => shrinks_pure _)

theorem shrinks_mt_status : RM.Shrinks mt.ConfirmationStatus.read_from := by
  unfold mt.ConfirmationStatus.read_from
  refine shrinks_bind shrinks_readU32 (fun _ => ?_)
  refine shrinks_bind (shrinks_readExact 15) (fun _ => ?_)
  refine shrinks_bind shrinks_readU32 (fun _ => ?_)
  exact shrinks_bind shrinks_readI16 (fun _ => shrinks_pure _)

/-- The dispatcher strictly consumes the stream on success (it has at least
read the tag byte), which bounds the parse loop. -/
theorem consumes_read_single : RM.Consumes InformationElement.read_single := by
  unfold InformationElement.read_single
  refine consumes_bind consumes_readU8 (fun iei => ?_)
  refine shrinks_bind shrinks_readU16 (fun length => ?_)
  split
  · exact shrinks_bind shrinks_mo_header (fun _ => shrinks_pure _)
  split
  · exact shrinks_bind shrinks_mt_header (fun _ => shrinks_pure _)
  split
  · exact shrinks_bind (shrinks_readExact _) (fun _ => shrinks_pure _)
  split
  · exact shrinks_bind (shrinks_readExact _) (fun _ => shrinks_ofExcept _)
  split
  · exact shrinks_bind shrinks_mt_status (fun _ => shrinks_pure _)
  split
  · exact shrinks_bind shrinks_mo_status (fun _ => shrinks_pure _)
  · exact shrinks_throw _

/-- The fuel of readLoopFuel is irrelevant as long as it bounds the buffer
length, so readLoop faithfully models the source's unbounded while loop. -/
theorem readLoopFuel_irrelevant :
    ∀ f1 f2 bs, bs.length ≤ f1 → bs.length ≤ f2 →
      readLoopFuel f1 bs = readLoopFuel f2 bs := by
  intro f1
  induction f1 with
  | zero =>
    intro f2 bs h1 _
    cases bs with
    | nil => cases f2 <;> rfl
    | cons b tl => simp at h1
  | succ g1 ih =>
    intro f2 bs h1 h2
    cases bs with
    | nil => cases f2 <;> rfl
    | cons b tl =>
      cases f2 with
      | zero => simp at h2
      | succ g2 =>
        simp only [readLoopFuel]
        cases hrs : InformationElement.read_single (b :: tl) with
        | error e => rfl
        | ok p =>
          obtain ⟨ie, rest⟩ := p
          have hlt := consumes_read_single _ _ _ hrs
          simp only [List.length_cons] at hlt h1 h2
          dsimp only
          rw [ih g2 rest (by omega) (by omega)]

/-! Emit lemmas: each writer appends exactly its bytes list on a sink that
does not fail. -/

theorem emits_congr {w : WM Unit} {o1 o2 : List Nat} (hw : Emits w o1)
    (he : o1 = o2) : Emits w o2 := he ▸ hw

theorem emits_writeAll (bs : List Nat) : Emits (writeAll bs) bs := fun _ => rfl

theorem emits_bind {w1 w2 : WM Unit} {o1 o2 : List Nat} (h1 : Emits w1 o1)
    (h2 : Emits w2 o2) : Emits (w1 >>= fun _ => w2) (o1 ++ o2) := by
  intro buf
  simp only [wm_bind_eq, WM.bind, h1 buf, h2 (buf ++ o1), List.append_assoc]

/-- Running a sequenced writer on an unbounded sink steps over an emitting
prefix. -/
theorem bind_emits_run {w1 : WM Unit} {o1 : List Nat} (h1 : Emits w1 o1)
    (w2 : WM Unit) (buf : List Nat) :
    (w1 >>= fun _ => w2) ⟨buf, none⟩ = w2 ⟨buf ++ o1, none⟩ := by
  simp only [wm_bind_eq, WM.bind, h1 buf]

theorem emits_writeU8 (n : Nat) : Emits (writeU8 n) [n % 256] := emits_writeAll _

theorem emits_writeU16 (n : Nat) : Emits (writeU16 n) (u16Bytes n) := emits_writeAll _

theorem emits_writeU32 (n : Nat) : Emits (writeU32 n) (u32Bytes n) := emits_writeAll _

theorem emits_writeI16 (v : Int) : Emits (writeI16 v) (i16Bytes v) := emits_writeAll _

theorem emits_pure : Emits (WM.pure ()) [] := by
  intro buf
  simp [WM.pure]

theorem emits_discard {w : WM Unit} {o : List Nat} (hw : Emits w o) :
    Emits (Message.WM.discard w) o := by
  intro buf
  simp [Message.WM.discard, hw buf]

theorem toU8_lt_256 (s : mo.SessionStatus) : s.toU8 % 256 = s.toU8 := by
  cases s <;> rfl

theorem dirU8_lt_256 (d : mo.LocationDirection) : d.toU8 % 256 = d.toU8 := by
  cases d <;> rfl

theorem emits_mo_header (h : mo.Header) (ht : 0 ≤ h.time_of_session) :
    Emits h.write_to h.bytes := by
  unfold mo.Header.write_to
  rw [if_neg (not_lt.mpr ht)]
  refine emits_congr (emits_bind (emits_writeAll _) (emits_bind (emits_writeAll _)
    (emits_bind (emits_writeAll _) (emits_bind (emits_writeAll _)
    (emits_bind (emits_writeAll _) (emits_bind (emits_writeAll _)
    (emits_bind (emits_writeAll _) (emits_writeAll _)))))))) ?_
  simp [mo.Header.bytes, toU8_lt_256, writeU8, writeU16, writeU32]

theorem emits_mt_header (h : mt.Header) : Emits h.write_to h.bytes := by
  unfold mt.Header.write_to
  refine emits_congr (emits_bind (emits_writeAll _) (emits_bind (emits_writeAll _)
    (emits_bind (emits_writeAll _) (emits_bind (emits_writeAll _)
    (emits_writeAll _))))) ?_
  simp [mt.Header.bytes, writeU8, writeU16, writeU32]

theorem emits_header (h : Header) (ht : InformationElement.WriteOk (.header h)) :
    Emits h.write_to h.bytes := by
  cases h with
  | moHeader h => exact emits_mo_header h ht
  | mtHeader h => exact emits_mt_header h

theorem emits_mo_status (c : mo.ConfirmationStatus) : Emits c.write_to c.bytes := by
  unfold mo.ConfirmationStatus.write_to
  refine emits_congr (emits_writeAll _) ?_
  cases hc : c.status <;> simp [mo.ConfirmationStatus.bytes, writeU8, hc]

theorem emits_mt_status (c : mt.ConfirmationStatus) : Emits c.write_to c.bytes := by
  unfold mt.ConfirmationStatus.write_to
  refine emits_congr (emits_bind (emits_writeAll _) (emits_bind (emits_writeAll _)
    (emits_bind (emits_writeAll _) (emits_bind (emits_writeAll _)
    (emits_bind (emits_writeAll _) (emits_writeAll _)))))) ?_
  simp [mt.ConfirmationStatus.bytes, writeU8, writeU16, writeU32, writeI16]

theorem emits_status (s : Status) : Emits s.write_to s.bytes := by
  cases s with
  | moStatus s => exact emits_mo_status s
  | mtStatus s => exact emits_mt_status s

theorem emits_location (l : mo.LocationInformation) : Emits l.write_to l.bytes := by
  unfold mo.LocationInformation.write_to
  cases hr : l.radius with
  | some r =>
    dsimp only
    refine emits_congr (emits_bind (emits_writeAll _) (emits_bind (emits_writeAll _)
      (emits_bind (emits_writeAll _) (emits_bind (emits_writeAll _)
      (emits_bind (emits_writeAll _) (emits_bind (emits_writeAll _)
      (emits_bind (emits_writeAll _) (emits_writeAll _)))))))) ?_
    simp [mo.LocationInformation.bytes, hr, dirU8_lt_256, writeU8, writeU16, writeU32]
  | none =>
    dsimp only
    refine emits_congr (emits_bind (emits_writeAll _) (emits_bind (emits_writeAll _)
      (emits_bind (emits_writeAll _) (emits_bind (emits_writeAll _)
      (emits_bind (emits_writeAll _) (emits_bind (emits_writeAll _)
      (emits_bind (emits_writeAll _) emits_pure))))))) ?_
    simp [mo.LocationInformation.bytes, hr, dirU8_lt_256, writeU8, writeU16]

theorem emits_ie (ie : InformationElement) (hok : ie.WriteOk) :
    Emits ie.write_to ie.bytes := by
  cases ie with
  | header h => exact emits_header h hok
  | status s => exact emits_status s
  | locationInformation l => exact emits_location l
  | moPayload p =>
    unfold InformationElement.write_to
    dsimp only
    rw [if_neg (not_lt.mpr hok)]
    refine emits_congr (emits_bind (emits_writeAll _) (emits_bind (emits_writeAll _)
      (emits_writeAll _))) ?_
    simp [InformationElement.bytes, writeU8, writeU16]
  | mtPayload p =>
    unfold InformationElement.write_to
    dsimp only
    rw [if_neg (not_lt.mpr hok)]
    refine emits_congr (emits_bind (emits_writeAll _) (emits_bind (emits_writeAll _)
      (emits_writeAll _))) ?_
    simp [InformationElement.bytes, writeU8, writeU16]

theorem emits_ieList (l : List InformationElement)
    (hok : ∀ ie ∈ l, InformationElement.WriteOk ie) :
    Emits (Message.writeIEList l) (ieListBytes l) := by
  induction l with
  | nil => exact emits_pure
  | cons ie rest ih =>
    have h1 : Emits ie.write_to ie.bytes := emits_ie ie (hok ie (by simp))
    have h2 := ih (fun x hx => hok x (by simp [hx]))
    exact emits_congr (emits_bind h1 h2) rfl

/-- Lower bound on the message length: the payload always fits once the
overall bound holds. -/
theorem payload_le_of_overall (m : Message) (hov : m.length - 3 ≤ 65535) :
    m.payload.length ≤ 65535 := by
  have h24 : 24 ≤ m.header.len := by
    cases m.header with
    | moHeader h => simp [Header.len, mo.Header.len]
    | mtHeader h => simp [Header.len, mt.Header.len]
  have : m.header.len + m.payload.length + 1 + 2 ≤ m.length := by
    unfold Message.length
    omega
  omega

/-- Encode equation: when the overall length fits, the header timestamp is
writable and the leftover elements are writable, Message::write_to on a fresh
unbounded sink produces exactly Message.bytes. -/
theorem encodeMessage_eq (m : Message)
    (hh : InformationElement.WriteOk (.header m.header))
    (hov : m.length - 3 ≤ 65535)
    (hies : ∀ ie ∈ m.information_elements, ie.WriteOk) :
    encodeMessage m = .ok m.bytes := by
  have hp : m.payload.length ≤ 65535 := payload_le_of_overall m hov
  have hploc : Emits (match m.location with
      | some l => Message.WM.discard l.write_to
      | none => WM.pure ())
      (match m.location with
       | some l => l.bytes
       | none => []) := by
    cases m.location with
    | some l => exact emits_discard (emits_location l)
    | none => exact emits_pure
  have hpay : Emits (InformationElement.write_to
        (match m.header with
         | .moHeader _ => .moPayload m.payload
         | .mtHeader _ => .mtPayload m.payload))
      (payloadTag m.header :: u16Bytes m.payload.length ++ m.payload) := by
    cases m.header with
    | moHeader h =>
      refine emits_congr (emits_ie (.moPayload m.payload) hp) ?_
      simp [InformationElement.bytes, payloadTag]
    | mtHeader h =>
      refine emits_congr (emits_ie (.mtPayload m.payload) hp) ?_
      simp [InformationElement.bytes, payloadTag]
  have hrun : Emits m.write_to m.bytes := by
    unfold Message.write_to
    rw [if_neg (not_lt.mpr hov)]
    refine emits_congr (emits_bind (emits_writeAll _) (emits_bind (emits_writeAll _)
      (emits_bind (emits_header m.header hh) (emits_bind hpay
      (emits_bind hploc (emits_ieList m.information_elements hies)))))) ?_
    simp [Message.bytes, writeU8, writeU16, List.append_assoc]
  unfold encodeMessage
  rw [hrun []]
  simp

/-! Decode lemmas: each decoder consumes exactly the bytes its encoder
produced, for well-formed values. -/

theorem readsAt_congr {r : RM α} {c1 c2 : List Nat} {a1 a2 : α}
    (h : ReadsAt r c1 a1) (hc : c1 = c2) (ha : a1 = a2) : ReadsAt r c2 a2 :=
  hc ▸ ha ▸ h

theorem readsAt_bind {x : RM α} {f : α → RM β} {c1 c2 : List Nat} {a : α} {b : β}
    (hx : ReadsAt x c1 a) (hf : ReadsAt (f a) c2 b) :
    ReadsAt (x >>= f) (c1 ++ c2) b := by
  intro rest
  simp only [rm_bind_eq, RM.bind, List.append_assoc, hx (c2 ++ rest), hf rest]

theorem readsAt_pure (a : α) : ReadsAt (RM.pure a) [] a := fun _ => rfl

theorem readsAt_ofExcept (a : α) : ReadsAt (RM.ofExcept (.ok a)) [] a := fun _ => rfl

theorem readsAt_readU8 (b : Nat) : ReadsAt readU8 [b] b := fun _ => rfl

theorem readsAt_readExact (xs : List Nat) (n : Nat) (hl : xs.length = n) :
    ReadsAt (readExact n) xs xs := by
  intro rest
  simp [readExact, hl, List.take_left', List.drop_left']

theorem beCombine_u16 {n : Nat} (hn : n < 65536) : beCombine (u16Bytes n) = n := by
  simp only [beCombine, u16Bytes, List.foldl]
  omega

theorem beCombine_u32 {n : Nat} (hn : n < 4294967296) : beCombine (u32Bytes n) = n := by
  simp only [beCombine, u32Bytes, List.foldl]
  omega

theorem readsAt_readU16 (n : Nat) (hn : n < 65536) : ReadsAt readU16 (u16Bytes n) n := by
  unfold readU16
  refine readsAt_congr (readsAt_bind (readsAt_readExact (u16Bytes n) 2 rfl) (readsAt_pure _)) ?_ ?_
  · simp
  · exact beCombine_u16 hn

theorem readsAt_readU32 (n : Nat) (hn : n < 4294967296) : ReadsAt readU32 (u32Bytes n) n := by
  unfold readU32
  refine readsAt_congr (readsAt_bind (readsAt_readExact (u32Bytes n) 4 rfl) (readsAt_pure _)) ?_ ?_
  · simp
  · exact beCombine_u32 hn

theorem readsAt_readI16 (v : Int) (h1 : -32768 ≤ v) (h2 : v < 32768) :
    ReadsAt readI16 (i16Bytes v) v := by
  unfold readI16 i16Bytes
  have hu : (v % 65536).toNat < 65536 := by omega
  refine readsAt_congr (readsAt_bind (readsAt_readU16 (v % 65536).toNat hu) (readsAt_pure _)) ?_ ?_
  · simp
  · split <;> omega

theorem new_toU8 (s : mo.SessionStatus) : mo.SessionStatus.new s.toU8 = .ok s := by
  cases s <;> rfl

theorem fromU8_toU8 (d : mo.LocationDirection) :
    mo.LocationDirection.fromU8 d.toU8 = d := by
  cases d <;> rfl

theorem readsAt_mo_header (h : mo.Header) (hwf : h.Wf)
    (ht : 0 ≤ h.time_of_session) (ht2 : h.time_of_session < 4294967296) :
    ReadsAt mo.Header.read_from
      (u32Bytes h.auto_id ++ h.imei ++ h.session_status.toU8 :: u16Bytes h.momsn
        ++ u16Bytes h.mtmsn ++ u32Bytes h.time_of_session.toNat) h := by
  obtain ⟨ha, hi, _, hmo, hmt⟩ := hwf
  unfold mo.Header.read_from
  have htn : h.time_of_session.toNat < 4294967296 := by omega
  refine readsAt_congr (readsAt_bind (readsAt_readU32 h.auto_id ha)
    (readsAt_bind (readsAt_readExact _ _ hi)
    (readsAt_bind (readsAt_readU8 _)
    (readsAt_bind (new_toU8 h.session_status ▸ readsAt_ofExcept h.session_status)
    (readsAt_bind (readsAt_readU16 h.momsn hmo)
    (readsAt_bind (readsAt_readU16 h.mtmsn hmt)
    (readsAt_bind (readsAt_readU32 h.time_of_session.toNat htn)
    (readsAt_pure _)))))))) ?_ ?_
  · simp
  · simp [Int.toNat_of_nonneg ht]

theorem readsAt_mt_header (h : mt.Header) (hwf : h.Wf) :
    ReadsAt mt.Header.read_from
      (u32Bytes h.message_id ++ h.imei ++ u16Bytes h.flags) h := by
  obtain ⟨hm, hi, _, hf⟩ := hwf
  unfold mt.Header.read_from
  refine readsAt_congr (readsAt_bind (readsAt_readU32 _ hm)
    (readsAt_bind (readsAt_readExact _ _ hi)
    (readsAt_bind (readsAt_readU16 h.flags hf)
    (readsAt_pure _)))) ?_ ?_
  · simp
  · rfl

theorem readsAt_mo_status (c : mo.ConfirmationStatus) :
    ReadsAt mo.ConfirmationStatus.read_from [if c.status then 1 else 0] c := by
  unfold mo.ConfirmationStatus.read_from
  cases hc : c.status with
  | true =>
    rw [if_pos rfl]
    refine readsAt_congr (readsAt_bind (readsAt_readU8 1) (readsAt_pure _)) rfl ?_
    refine congrArg mo.ConfirmationStatus.mk ?_
    simp [hc]
  | false =>
    rw [if_neg (by simp [hc])]
    refine readsAt_congr (readsAt_bind (readsAt_readU8 0) (readsAt_pure _)) rfl ?_
    refine congrArg mo.ConfirmationStatus.mk ?_
    simp [hc]

theorem readsAt_mt_status (c : mt.ConfirmationStatus) (hwf : c.Wf) :
    ReadsAt mt.ConfirmationStatus.read_from
      (u32Bytes c.message_id ++ c.imei ++ u32Bytes c.auto_id ++ i16Bytes c.status) c := by
  obtain ⟨hm, hi, _, ha, hs1, hs2⟩ := hwf
  unfold mt.ConfirmationStatus.read_from
  refine readsAt_congr (readsAt_bind (readsAt_readU32 _ hm)
    (readsAt_bind (readsAt_readExact _ _ hi)
    (readsAt_bind (readsAt_readU32 c.auto_id ha)
    (readsAt_bind (readsAt_readI16 c.status hs1 hs2)
    (readsAt_pure _))))) ?_ ?_
  · simp
  · rfl

theorem locBytes_split (l : mo.LocationInformation) :
    l.bytes = 3 :: u16Bytes (l.len - 3) ++ locBodyBytes l := by
  simp [mo.LocationInformation.bytes, locBodyBytes]

theorem locBodyBytes_length (l : mo.LocationInformation) :
    (locBodyBytes l).length = l.len - 3 := by
  cases hr : l.radius <;>
    simp [locBodyBytes, mo.LocationInformation.len, hr, u16Bytes, u32Bytes]

theorem readsAt_locFromBody (l : mo.LocationInformation) (hwf : l.Wf) :
    ReadsAt (InformationElement.locFromBody (l.len - 3)) (locBodyBytes l)
      (.locationInformation l) := by
  obtain ⟨hlat1, hlat2, hlon1, hlon2, hr⟩ := hwf
  unfold InformationElement.locFromBody
  cases hrad : l.radius with
  | some r =>
    have hlen : l.len - 3 = 11 := by simp [mo.LocationInformation.len, hrad]
    rw [hlen]
    have hrb : r < 4294967296 := by rw [hrad] at hr; exact hr
    have hrad11 : ReadsAt (InformationElement.readRadius 11) (u32Bytes r) (some r) := by
      unfold InformationElement.readRadius
      rw [if_pos rfl]
      exact readsAt_congr (readsAt_bind (readsAt_readU32 r hrb) (readsAt_pure _)) (by simp) rfl
    refine readsAt_congr (readsAt_bind (readsAt_readU8 l.direction.toU8)
      (readsAt_bind (readsAt_readU8 (l.latitude.1 % 256))
      (readsAt_bind (readsAt_readU16 l.latitude.2 hlat2)
      (readsAt_bind (readsAt_readU8 (l.longitude.1 % 256))
      (readsAt_bind (readsAt_readU16 l.longitude.2 hlon2)
      (readsAt_bind hrad11
      (readsAt_pure _))))))) ?_ ?_
    · simp [locBodyBytes, hrad]
    · simp [mo.LocationInformation.new, fromU8_toU8, Nat.mod_eq_of_lt hlat1,
        Nat.mod_eq_of_lt hlon1]
      exact (mo.LocationInformation.mk.injEq _ _ _ _ _ _ _ _).mpr
        ⟨rfl, rfl, rfl, hrad.symm⟩
  | none =>
    have hlen : l.len - 3 = 7 := by simp [mo.LocationInformation.len, hrad]
    rw [hlen]
    have hrad7 : ReadsAt (InformationElement.readRadius 7) [] none := by
      unfold InformationElement.readRadius
      rw [if_neg (by omega)]
      exact readsAt_pure none
    refine readsAt_congr (readsAt_bind (readsAt_readU8 l.direction.toU8)
      (readsAt_bind (readsAt_readU8 (l.latitude.1 % 256))
      (readsAt_bind (readsAt_readU16 l.latitude.2 hlat2)
      (readsAt_bind (readsAt_readU8 (l.longitude.1 % 256))
      (readsAt_bind (readsAt_readU16 l.longitude.2 hlon2)
      (readsAt_bind hrad7
      (readsAt_pure _))))))) ?_ ?_
    · simp [locBodyBytes, hrad]
    · simp [mo.LocationInformation.new, fromU8_toU8, Nat.mod_eq_of_lt hlat1,
        Nat.mod_eq_of_lt hlon1]
      exact (mo.LocationInformation.mk.injEq _ _ _ _ _ _ _ _).mpr
        ⟨rfl, rfl, rfl, hrad.symm⟩

theorem readsAt_single_mo_header (h : mo.Header) (hwf : h.Wf)
    (ht1 : 0 ≤ h.time_of_session) (ht2 : h.time_of_session < 4294967296) :
    ReadsAt InformationElement.read_single (mo.Header.bytes h)
      (.header (.moHeader h)) := by
  unfold InformationElement.read_single
  exact readsAt_congr (readsAt_bind (readsAt_readU8 1)
    (readsAt_bind (readsAt_readU16 28 (by norm_num))
    (readsAt_bind (readsAt_mo_header h hwf ht1 ht2) (readsAt_pure _))))
    (by simp [mo.Header.bytes]) rfl

theorem readsAt_single_mt_header (h : mt.Header) (hwf : h.Wf) :
    ReadsAt InformationElement.read_single (mt.Header.bytes h)
      (.header (.mtHeader h)) := by
  unfold InformationElement.read_single
  exact readsAt_congr (readsAt_bind (readsAt_readU8 0x41)
    (readsAt_bind (readsAt_readU16 21 (by norm_num))
    (readsAt_bind (readsAt_mt_header h hwf) (readsAt_pure _))))
    (by simp [mt.Header.bytes]) rfl

theorem readsAt_single_mo_payload (p : List Nat) (hp : p.length < 65536) :
    ReadsAt InformationElement.read_single
      (InformationElement.bytes (.moPayload p)) (.moPayload p) := by
  unfold InformationElement.read_single
  exact readsAt_congr (readsAt_bind (readsAt_readU8 2)
    (readsAt_bind (readsAt_readU16 p.length hp)
    (readsAt_bind (readsAt_readExact p p.length rfl) (readsAt_pure _))))
    (by simp [InformationElement.bytes]) rfl

theorem readsAt_single_mt_payload (p : List Nat) (hp : p.length < 65536) :
    ReadsAt InformationElement.read_single
      (InformationElement.bytes (.mtPayload p)) (.mtPayload p) := by
  unfold InformationElement.read_single
  exact readsAt_congr (readsAt_bind (readsAt_readU8 0x42)
    (readsAt_bind (readsAt_readU16 p.length hp)
    (readsAt_bind (readsAt_readExact p p.length rfl) (readsAt_pure _))))
    (by simp [InformationElement.bytes]) rfl

theorem readsAt_single_mt_status (c : mt.ConfirmationStatus) (hwf : c.Wf) :
    ReadsAt InformationElement.read_single (mt.ConfirmationStatus.bytes c)
      (.status (.mtStatus c)) := by
  unfold InformationElement.read_single
  exact readsAt_congr (readsAt_bind (readsAt_readU8 0x44)
    (readsAt_bind (readsAt_readU16 25 (by norm_num))
    (readsAt_bind (readsAt_mt_status c hwf) (readsAt_pure _))))
    (by simp [mt.ConfirmationStatus.bytes]) rfl

theorem readsAt_single_location (l : mo.LocationInformation) (hwf : l.Wf) :
    ReadsAt InformationElement.read_single (mo.LocationInformation.bytes l)
      (.locationInformation l) := by
  have hloc := readsAt_locFromBody l hwf []
  rw [List.append_nil] at hloc
  have hof : ReadsAt (RM.ofExcept ((InformationElement.locFromBody (l.len - 3)
      (locBodyBytes l)).map Prod.fst)) [] (.locationInformation l) := by
    rw [hloc]
    exact readsAt_ofExcept _
  have hlen : l.len - 3 < 65536 := by
    cases hr : l.radius <;> simp [mo.LocationInformation.len, hr]
  unfold InformationElement.read_single
  exact readsAt_congr (readsAt_bind (readsAt_readU8 3)
    (readsAt_bind (readsAt_readU16 (l.len - 3) hlen)
    (readsAt_bind (readsAt_readExact (locBodyBytes l) (l.len - 3)
      (locBodyBytes_length l)) hof)))
    (by rw [locBytes_split]; simp) rfl

theorem readLoop_nil : readLoop [] = .ok [] := rfl

theorem readLoop_step {bs rest : List Nat} {ie : InformationElement}
    (h : InformationElement.read_single bs = .ok (ie, rest)) :
    readLoop bs =
      match readLoop rest with
      | .ok ies => .ok (ie :: ies)
      | .error e => .error e := by
  have hlt := consumes_read_single _ _ _ h
  cases bs with
  | nil => simp at hlt
  | cons b tl =>
    unfold readLoop
    simp only [List.length_cons, readLoopFuel, h]
    rw [readLoopFuel_irrelevant tl.length rest.length rest
      (by simp only [List.length_cons] at hlt; omega) (le_refl _)]
    cases readLoopFuel rest.length rest <;> rfl

theorem ieListBytes_append (l1 l2 : List InformationElement) :
    ieListBytes (l1 ++ l2) = ieListBytes l1 ++ ieListBytes l2 := by
  induction l1 with
  | nil => rfl
  | cons ie rest ih => simp [ieListBytes, ih]

theorem readLoop_chunks (ies : List InformationElement)
    (h : ∀ ie ∈ ies, ReadsAt InformationElement.read_single ie.bytes ie) :
    readLoop (ieListBytes ies) = .ok ies := by
  induction ies with
  | nil => rfl
  | cons ie rest ih =>
    have h1 : InformationElement.read_single (ie.bytes ++ ieListBytes rest)
        = .ok (ie, ieListBytes rest) := h ie (by simp) (ieListBytes rest)
    have h2 : ieListBytes (ie :: rest) = ie.bytes ++ ieListBytes rest := rfl
    rw [h2, readLoop_step h1, ih (fun x hx => h x (by simp [hx]))]

theorem parse_frame (L : Nat) (body rest : List Nat) (hL : body.length = L)
    (hlt : L < 65536) :
    InformationElement.parse (1 :: u16Bytes L ++ body ++ rest) =
      (readLoop body).map (fun ies => (ies, rest)) := by
  unfold InformationElement.parse
  simp only [rm_bind_eq, RM.bind]
  rw [show (1 :: u16Bytes L ++ body ++ rest) = 1 :: (u16Bytes L ++ (body ++ rest)) by simp]
  simp only [readU8]
  rw [if_neg (by simp)]
  simp only [rm_bind_eq, RM.bind]
  rw [readsAt_readU16 L hlt (body ++ rest)]
  dsimp only
  rw [readsAt_readExact body L hL rest]
  rfl

theorem createAux_statuses (l : List InformationElement) :
    ∀ (h : Header) (p : List Nat) (lo : Option mo.LocationInformation)
      (acc : List InformationElement), (∀ ie ∈ l, ie.isStatus) →
      Message.createAux (some h) (some p) lo acc l
        = .ok (Message.new h p lo (acc ++ l)) := by
  induction l with
  | nil =>
    intro h p lo acc _
    simp [Message.createAux]
  | cons ie rest ih =>
    intro h p lo acc hst
    cases ie with
    | status s =>
      have := ih h p lo (acc ++ [.status s]) (fun x hx => hst x (by simp [hx]))
      simp only [Message.createAux] at this ⊢
      rw [this]
      simp
    | header x =>
      have hx := hst (.header x) (by simp)
      simp [InformationElement.isStatus] at hx
    | moPayload x =>
      have hx := hst (.moPayload x) (by simp)
      simp [InformationElement.isStatus] at hx
    | mtPayload x =>
      have hx := hst (.mtPayload x) (by simp)
      simp [InformationElement.isStatus] at hx
    | locationInformation x =>
      have hx := hst (.locationInformation x) (by simp)
      simp [InformationElement.isStatus] at hx

theorem message_bytes_decomp (m : Message) :
    m.bytes = 1 :: u16Bytes (m.length - 3) ++ ieListBytes m.asIEs := by
  cases hmh : m.header <;> cases hlo : m.location <;>
    simp [Message.bytes, Message.asIEs, ieListBytes, ieListBytes_append, hmh, hlo,
      InformationElement.bytes, Header.bytes, payloadTag]

theorem mo_header_bytes_length (h : mo.Header) (hi : h.imei.length = 15) :
    h.bytes.length = 31 := by
  simp [mo.Header.bytes, u16Bytes, u32Bytes, hi]

theorem mt_header_bytes_length (h : mt.Header) (hi : h.imei.length = 15) :
    h.bytes.length = 24 := by
  simp [mt.Header.bytes, u16Bytes, u32Bytes, hi]

theorem mt_status_bytes_length (c : mt.ConfirmationStatus) (hi : c.imei.length = 15) :
    c.bytes.length = 28 := by
  simp [mt.ConfirmationStatus.bytes, u16Bytes, u32Bytes, i16Bytes, hi]

theorem loc_bytes_length (l : mo.LocationInformation) : l.bytes.length = l.len := by
  cases hr : l.radius <;>
    simp [mo.LocationInformation.bytes, mo.LocationInformation.len, hr, u16Bytes, u32Bytes]

theorem ieListBytes_length_statuses (l : List InformationElement)
    (hwf : ∀ ie ∈ l, ie.Wf) (hst : ∀ ie ∈ l, ie.isMtStatus) :
    (ieListBytes l).length = (l.map (fun ie => ie.len)).sum := by
  induction l with
  | nil => rfl
  | cons ie rest ih =>
    cases ie with
    | status s =>
      cases s with
      | mtStatus c =>
        have hcwf : (InformationElement.status (.mtStatus c)).Wf := hwf _ (by simp)
        have hlen : c.imei.length = 15 := hcwf.2.1
        simp [ieListBytes, InformationElement.bytes, Status.bytes,
          InformationElement.len, Status.len, mt.ConfirmationStatus.len,
          mt_status_bytes_length c hlen,
          ih (fun x hx => hwf x (by simp [hx])) (fun x hx => hst x (by simp [hx]))]
      | moStatus c =>
        have hx := hst (.status (.moStatus c)) (by simp)
        simp [InformationElement.isMtStatus] at hx
    | header x =>
      have hx := hst (.header x) (by simp)
      simp [InformationElement.isMtStatus] at hx
    | moPayload x =>
      have hx := hst (.moPayload x) (by simp)
      simp [InformationElement.isMtStatus] at hx
    | mtPayload x =>
      have hx := hst (.mtPayload x) (by simp)
      simp [InformationElement.isMtStatus] at hx
    | locationInformation x =>
      have hx := hst (.locationInformation x) (by simp)
      simp [InformationElement.isMtStatus] at hx

theorem header_bytes_length (h : Header) (hwf : h.Wf) : h.bytes.length = h.len := by
  cases h with
  | moHeader h => exact (mo_header_bytes_length h hwf.2.1).trans rfl
  | mtHeader h => exact (mt_header_bytes_length h hwf.2.1).trans rfl

theorem asIEs_bytes_length (m : Message) (hwf : m.Wf)
    (hst : ∀ ie ∈ m.information_elements, ie.isMtStatus) :
    (ieListBytes m.asIEs).length = m.length - 3 := by
  obtain ⟨hhw, hpb, hlw, hiw⟩ := hwf
  have hhl : m.header.bytes.length = m.header.len := header_bytes_length m.header hhw
  have hol := ieListBytes_length_statuses m.information_elements hiw hst
  have hpay : (match m.header with
      | .moHeader _ => InformationElement.moPayload m.payload
      | .mtHeader _ => InformationElement.mtPayload m.payload).bytes.length
      = m.payload.length + 3 := by
    cases m.header <;> simp [InformationElement.bytes, u16Bytes]
  have hloc : (ieListBytes (match m.location with
      | some l => [InformationElement.locationInformation l]
      | none => [])).length
      = (match m.location with
         | some l => l.len
         | none => 0) := by
    cases m.location with
    | some l => simp [ieListBytes, InformationElement.bytes, loc_bytes_length]
    | none => rfl
  have h24 : 24 ≤ m.header.len := by
    cases m.header <;> simp [Header.len, mo.Header.len, mt.Header.len]
  simp only [Message.asIEs, ieListBytes, ieListBytes_append, List.length_append,
    List.length_cons, InformationElement.bytes] at *
  unfold Message.length
  omega

/-- C1 (amended): encoding then decoding returns the original message for
every well-formed message whose header timestamp is non-negative and below
2 to the 32, whose leftover information elements are all MT confirmation
statuses, and whose post-frame length is at most 65535. -/
theorem c1_round_trip_amended (m : Message) (hwf : m.Wf) (ht : m.header.timeOk)
    (hst : ∀ ie ∈ m.information_elements, ie.isMtStatus)
    (hov : m.length - 3 ≤ 65535) :
    roundTrip m = .ok m := by
  obtain ⟨hhw, hpb, hlw, hiw⟩ := hwf
  have hpl : m.payload.length ≤ 65535 := payload_le_of_overall m hov
  have hh : InformationElement.WriteOk (.header m.header) := by
    cases hmh : m.header with
    | moHeader h =>
      rw [hmh] at ht
      exact ht.1
    | mtHeader h => trivial
  have hiok : ∀ ie ∈ m.information_elements, ie.WriteOk := by
    intro ie hie
    have hx := hst ie hie
    cases ie with
    | status s => trivial
    | header x => simp [InformationElement.isMtStatus] at hx
    | moPayload x => simp [InformationElement.isMtStatus] at hx
    | mtPayload x => simp [InformationElement.isMtStatus] at hx
    | locationInformation x => simp [InformationElement.isMtStatus] at hx
  have henc := encodeMessage_eq m hh hov hiok
  have hread : ∀ ie ∈ m.asIEs, ReadsAt InformationElement.read_single ie.bytes ie := by
    intro ie hie
    simp only [Message.asIEs, List.mem_cons, List.mem_append] at hie
    rcases hie with h1 | h1 | h1 | h1
    · subst h1
      cases hmh : m.header with
      | moHeader h =>
        rw [hmh] at ht hhw
        exact readsAt_single_mo_header h hhw ht.1 ht.2
      | mtHeader h =>
        rw [hmh] at hhw
        exact readsAt_single_mt_header h hhw
    · cases hmh : m.header with
      | moHeader h =>
        rw [hmh] at h1
        subst h1
        exact readsAt_single_mo_payload m.payload (by omega)
      | mtHeader h =>
        rw [hmh] at h1
        subst h1
        exact readsAt_single_mt_payload m.payload (by omega)
    · cases hlo : m.location with
      | some l =>
        rw [hlo] at h1 hlw
        simp at h1
        subst h1
        exact readsAt_single_location l hlw
      | none =>
        rw [hlo] at h1
        simp at h1
    · have hx := hst ie h1
      have hxw := hiw ie h1
      cases ie with
      | status s =>
        cases s with
        | mtStatus c => exact readsAt_single_mt_status c hxw
        | moStatus c => simp [InformationElement.isMtStatus] at hx
      | header x => simp [InformationElement.isMtStatus] at hx
      | moPayload x => simp [InformationElement.isMtStatus] at hx
      | mtPayload x => simp [InformationElement.isMtStatus] at hx
      | locationInformation x => simp [InformationElement.isMtStatus] at hx
  have hlen : (ieListBytes m.asIEs).length = m.length - 3 :=
    asIEs_bytes_length m ⟨hhw, hpb, hlw, hiw⟩ hst
  have hparse : InformationElement.parse m.bytes = .ok (m.asIEs, []) := by
    rw [message_bytes_decomp m,
      show (1 :: u16Bytes (m.length - 3) ++ ieListBytes m.asIEs)
        = (1 :: u16Bytes (m.length - 3) ++ ieListBytes m.asIEs ++ []) by simp,
      parse_frame (m.length - 3) (ieListBytes m.asIEs) [] hlen (by omega),
      readLoop_chunks m.asIEs hread]
    rfl
  have hcreate : Message.create m.asIEs = .ok m := by
    have hst2 : ∀ ie ∈ m.information_elements, ie.isStatus := by
      intro ie hie
      have hx := hst ie hie
      cases ie with
      | status s => trivial
      | header x => simp [InformationElement.isMtStatus] at hx
      | moPayload x => simp [InformationElement.isMtStatus] at hx
      | mtPayload x => simp [InformationElement.isMtStatus] at hx
      | locationInformation x => simp [InformationElement.isMtStatus] at hx
    unfold Message.create Message.asIEs
    cases hmh : m.header with
    | moHeader h =>
      cases hlo : m.location with
      | some l =>
        dsimp only
        simp only [Message.createAux, List.singleton_append, List.append_eq, List.nil_append]
        rw [createAux_statuses m.information_elements (.moHeader h) m.payload (some l) [] hst2]
        rw [← hmh, ← hlo]
        simp [Message.new]
      | none =>
        dsimp only
        simp only [Message.createAux, List.append_eq, List.nil_append]
        rw [createAux_statuses m.information_elements (.moHeader h) m.payload none [] hst2]
        rw [← hmh, ← hlo]
        simp [Message.new]
    | mtHeader h =>
      cases hlo : m.location with
      | some l =>
        dsimp only
        simp only [Message.createAux, List.singleton_append, List.append_eq, List.nil_append]
        rw [createAux_statuses m.information_elements (.mtHeader h) m.payload (some l) [] hst2]
        rw [← hmh, ← hlo]
        simp [Message.new]
      | none =>
        dsimp only
        simp only [Message.createAux, List.append_eq, List.nil_append]
        rw [createAux_statuses m.information_elements (.mtHeader h) m.payload none [] hst2]
        rw [← hmh, ← hlo]
        simp [Message.new]
  unfold roundTrip
  rw [henc]
  show Message.read_from m.bytes = .ok m
  unfold Message.read_from
  rw [hparse]
  exact hcreate


/-! Shared lemma for the assembly claims: the leftover elements of a
successfully created message are exactly the status elements of the input, in
order. -/

theorem createAux_others (ies : List InformationElement) :
    ∀ hdr pay loc acc m, Message.createAux hdr pay loc acc ies = .ok m →
      m.information_elements
        = acc ++ ies.filter (fun ie => match ie with
            | .status _ => true
            | _ => false) := by
  induction ies with
  | nil =>
    intro hdr pay loc acc m h
    cases hdr with
    | none => cases h
    | some hd =>
      cases pay with
      | none => cases h
      | some p =>
        simp only [Message.createAux, Except.ok.injEq] at h
        rw [← h]
        simp [Message.new]
  | cons ie rest ih =>
    intro hdr pay loc acc m h
    cases ie with
    | header x =>
      cases hdr with
      | some hd => cases h
      | none =>
        simp only [Message.createAux] at h
        simpa [List.filter] using ih (some x) pay loc acc m h
    | moPayload x =>
      cases pay with
      | some p => cases h
      | none =>
        simp only [Message.createAux] at h
        simpa [List.filter] using ih hdr (some x) loc acc m h
    | mtPayload x =>
      cases pay with
      | some p => cases h
      | none =>
        simp only [Message.createAux] at h
        simpa [List.filter] using ih hdr (some x) loc acc m h
    | locationInformation x =>
      cases loc with
      | some l => cases h
      | none =>
        simp only [Message.createAux] at h
        simpa [List.filter] using ih hdr pay (some x) acc m h
    | status s =>
      simp only [Message.createAux] at h
      have := ih hdr pay loc (acc ++ [.status s]) m h
      simpa [List.filter] using this

/-! Claim theorems. -/

/-- C1 (counterexample): a message meeting the claim as stated, with a
non-negative header timestamp and a payload within 65535 bytes, that does not
round-trip: its timestamp does not fit the 32-bit wire field, so it decodes
to a different message. -/
theorem c1_counterexample :
    (0 : Int) ≤ overflowHeader.time_of_session
      ∧ overflowMessage.payload.length ≤ 65535
      ∧ roundTrip overflowMessage ≠ .ok overflowMessage :=
  ⟨by decide, by decide, by decide⟩

theorem c1_round_trip_amended_witness :
    sampleMessage.Wf ∧ sampleMessage.header.timeOk
      ∧ (∀ ie ∈ sampleMessage.information_elements, ie.isMtStatus)
      ∧ sampleMessage.length - 3 ≤ 65535
      ∧ roundTrip sampleMessage = .ok sampleMessage :=
  ⟨by decide, by decide, by decide, by decide,
    c1_round_trip_amended sampleMessage (by decide) (by decide) (by decide) (by decide)⟩

/-- C2: the source writes an MO confirmation status as a single byte, with no
0x05 tag and no 16-bit length, while its declared len() is 4: encoding the
status true onto a fresh sink leaves exactly the one byte 1 in the buffer. -/
theorem c2_mo_status_write_one_byte :
    mo.ConfirmationStatus.write_to { status := true } ⟨[], none⟩
        = (.ok (), ⟨[1], none⟩)
      ∧ (mo.ConfirmationStatus.len { status := true } = 4)
      ∧ ([1] : List Nat).length = 1 :=
  ⟨by decide, rfl, rfl⟩

/-- C3 (counterexample): the decoded direction does not depend only on the top
two bits of the flags byte: 0x41 and 0x40 share the top two bits yet decode
differently, 0x41 decoding to NE rather than SE. -/
theorem c3_counterexample :
    mo.LocationDirection.fromU8 0x41 ≠ mo.LocationDirection.fromU8 0x40
      ∧ mo.LocationDirection.fromU8 0x41 = .NE :=
  ⟨by decide, rfl⟩

/-- C3 (amended): decode maps the exact byte values 0x40 to SE, 0x80 to NW,
0xC0 to SW and every other byte value to NE; encode writes one of 0x00, 0x40,
0x80, 0xC0, so all bits outside the top two are zero, and decoding an encoded
direction returns it. -/
theorem c3_direction_flags :
    (∀ b : Nat, b < 256 →
      mo.LocationDirection.fromU8 b
        = if b = 0x40 then .SE
          else if b = 0x80 then .NW
          else if b = 0xC0 then .SW
          else .NE)
    ∧ (∀ d : mo.LocationDirection, d.toU8 % 0x40 = 0)
    ∧ (∀ d : mo.LocationDirection, mo.LocationDirection.fromU8 d.toU8 = d) := by
  refine ⟨fun b _ => rfl, fun d => by cases d <;> rfl, fun d => by cases d <;> rfl⟩

theorem c3_direction_flags_witness :
    (65 : Nat) < 256
      ∧ mo.LocationDirection.fromU8 65
        = if (65 : Nat) = 0x40 then .SE
          else if (65 : Nat) = 0x80 then .NW
          else if (65 : Nat) = 0xC0 then .SW
          else .NE :=
  ⟨by decide, c3_direction_flags.1 65 (by decide)⟩

/-- C5: the location write result is discarded by Message::write_to, so an io
failure while writing the location element is swallowed: on a sink that fails
after the 37 bytes of frame, header and payload element, writing locMessage
(whose full encoding is 47 bytes) returns Ok with only 37 bytes written, even
though writing the location element alone on that full sink fails with io. -/
theorem c5_location_error_swallowed :
    (locMessage.write_to ⟨[], some 37⟩).1 = .ok ()
      ∧ ((locMessage.write_to ⟨[], some 37⟩).2.buf.length = 37)
      ∧ locMessage.length = 47
      ∧ (mo.LocationInformation.write_to
          (mo.LocationInformation.new 0 (60, 5132) (29, 14176) none)
          ⟨List.replicate 37 0, some 37⟩).1 = .error .io :=
  ⟨by decide, by decide, by decide, by decide⟩

/-- C6: Message::create fails with two-headers on a second header element,
with two-payloads on a second payload element of either direction, with
two-locations on a second location element, with no-header or no-payload at
finalization when the matching slot is empty, and collects the status
elements in order into the leftover list. -/
theorem c6_create_arity :
    (∀ (h : Header) pay loc acc (x : Header) rest,
      Message.createAux (some h) pay loc acc (.header x :: rest)
        = .error .twoHeaders)
    ∧ (∀ hdr (p : List Nat) loc acc (x : List Nat) rest,
      Message.createAux hdr (some p) loc acc (.moPayload x :: rest)
        = .error .twoPayloads)
    ∧ (∀ hdr (p : List Nat) loc acc (x : List Nat) rest,
      Message.createAux hdr (some p) loc acc (.mtPayload x :: rest)
        = .error .twoPayloads)
    ∧ (∀ hdr pay (l : mo.LocationInformation) acc (x : mo.LocationInformation) rest,
      Message.createAux hdr pay (some l) acc (.locationInformation x :: rest)
        = .error .twoLocations)
    ∧ (∀ pay loc acc, Message.createAux none pay loc acc [] = .error .noHeader)
    ∧ (∀ (h : Header) loc acc,
      Message.createAux (some h) none loc acc [] = .error .noPayload)
    ∧ (∀ hdr pay loc acc (s : Status) rest,
      Message.createAux hdr pay loc acc (.status s :: rest)
        = Message.createAux hdr pay loc (acc ++ [.status s]) rest)
    ∧ (∀ ies m, Message.create ies = .ok m →
      m.information_elements = ies.filter (fun ie => match ie with
        | .status _ => true
        | _ => false)) := by
  refine ⟨fun h pay loc acc x rest => rfl,
    fun hdr p loc acc x rest => rfl,
    fun hdr p loc acc x rest => rfl,
    fun hdr pay l acc x rest => rfl,
    fun pay loc acc => rfl,
    fun h loc acc => rfl,
    fun hdr pay loc acc s rest => rfl,
    fun ies m h => ?_⟩
  simpa using createAux_others ies none none none [] m h

theorem c6_create_arity_witness :
    Message.create [.header (.moHeader sampleMoHeader),
        .moPayload [1], .status (.mtStatus sampleMtStatus)]
      = .ok (Message.new (.moHeader sampleMoHeader) [1] none
          [.status (.mtStatus sampleMtStatus)])
    ∧ (Message.new (.moHeader sampleMoHeader) [1] none
          [.status (.mtStatus sampleMtStatus)]).information_elements
      = [InformationElement.header (.moHeader sampleMoHeader),
          .moPayload [1], .status (.mtStatus sampleMtStatus)].filter
          (fun ie => match ie with
            | .status _ => true
            | _ => false) :=
  ⟨by decide,
    c6_create_arity.2.2.2.2.2.2.2
      [.header (.moHeader sampleMoHeader), .moPayload [1],
        .status (.mtStatus sampleMtStatus)]
      (Message.new (.moHeader sampleMoHeader) [1] none
        [.status (.mtStatus sampleMtStatus)])
      (by decide)⟩

/-- C7: when the post-frame total exceeds 65535, Message::write_to fails with
the overall-message-length error carrying that total, and the sink is
returned untouched for every sink, so no bytes at all are written. -/
theorem c7_overall_length (m : Message) (s : Sink) (h : 65535 < m.length - 3) :
    m.write_to s = (.error (.overallMessageLength (m.length - 3)), s) := by
  unfold Message.write_to
  rw [if_pos h]
  rfl

theorem plain_mo_message_length (p : List Nat) :
    (Message.new (.moHeader sampleMoHeader) p none []).length = p.length + 37 := by
  unfold Message.length Message.new
  dsimp only
  simp only [Header.len, mo.Header.len, List.map_nil, List.sum_nil]
  omega

theorem hugeMessage_length : hugeMessage.length = 65570 := by
  have h := plain_mo_message_length (List.replicate 65533 0)
  rw [List.length_replicate] at h
  exact h

theorem c7_overall_length_witness :
    65535 < hugeMessage.length - 3
      ∧ hugeMessage.write_to ⟨[], none⟩
        = (.error (.overallMessageLength (hugeMessage.length - 3)), ⟨[], none⟩) :=
  ⟨by rw [hugeMessage_length]; decide,
    c7_overall_length hugeMessage ⟨[], none⟩ (by rw [hugeMessage_length]; decide)⟩

/-- C9: on a sink that does not fail, encoding an MO header with a negative
timestamp fails with the negative-timestamp error carrying it, and encoding
one whose timestamp is exactly the unix epoch succeeds. -/
theorem c9_timestamp (h : mo.Header) (buf : List Nat) :
    (h.time_of_session < 0 →
      (h.write_to ⟨buf, none⟩).1 = .error (.negativeTimestamp h.time_of_session))
    ∧ (h.time_of_session = 0 → (h.write_to ⟨buf, none⟩).1 = .ok ()) := by
  constructor
  · intro ht
    unfold mo.Header.write_to
    rw [bind_emits_run (emits_writeU8 1), bind_emits_run (emits_writeU16 28),
      bind_emits_run (emits_writeU32 h.auto_id), bind_emits_run (emits_writeAll h.imei),
      bind_emits_run (emits_writeU8 h.session_status.toU8),
      bind_emits_run (emits_writeU16 h.momsn), bind_emits_run (emits_writeU16 h.mtmsn)]
    rw [if_pos ht]
    rfl
  · intro ht
    unfold mo.Header.write_to
    rw [bind_emits_run (emits_writeU8 1), bind_emits_run (emits_writeU16 28),
      bind_emits_run (emits_writeU32 h.auto_id), bind_emits_run (emits_writeAll h.imei),
      bind_emits_run (emits_writeU8 h.session_status.toU8),
      bind_emits_run (emits_writeU16 h.momsn), bind_emits_run (emits_writeU16 h.mtmsn)]
    rw [if_neg (by omega)]
    rfl

theorem c9_timestamp_witness :
    ((mo.Header.write_to { sampleMoHeader with time_of_session := -1 }
        ⟨[], none⟩).1 = .error (.negativeTimestamp (-1)))
    ∧ ((mo.Header.write_to { sampleMoHeader with time_of_session := 0 }
        ⟨[], none⟩).1 = .ok ()) :=
  ⟨(c9_timestamp { sampleMoHeader with time_of_session := -1 } []).1 (by decide),
    (c9_timestamp { sampleMoHeader with time_of_session := 0 } []).2 rfl⟩

/-- C10: the assembler stores a payload of either direction in the same slot
(so the direction tag it was parsed under is forgotten), and the encoder
derives the payload tag solely from the header variant: the bytes written
after the header element start with payloadTag of the header, 0x02 for an MO
header and 0x42 for an MT header. -/
theorem c10_payload_tag :
    (∀ hdr pay loc acc (p : List Nat) rest,
      Message.createAux hdr pay loc acc (.moPayload p :: rest)
        = Message.createAux hdr pay loc acc (.mtPayload p :: rest))
    ∧ (payloadTag (.moHeader sampleMoHeader) = 2
        ∧ ∀ (h : mt.Header), payloadTag (.mtHeader h) = 0x42)
    ∧ (∀ m : Message, InformationElement.WriteOk (.header m.header) →
        m.length - 3 ≤ 65535 →
        (∀ ie ∈ m.information_elements, ie.WriteOk) →
        encodeMessage m
          = .ok (1 :: u16Bytes (m.length - 3) ++ m.header.bytes
              ++ payloadTag m.header :: u16Bytes m.payload.length ++ m.payload
              ++ (match m.location with
                  | some l => l.bytes
                  | none => [])
              ++ ieListBytes m.information_elements)) := by
  refine ⟨fun hdr pay loc acc p rest => rfl, ⟨rfl, fun h => rfl⟩,
    fun m hh hov hies => ?_⟩
  exact encodeMessage_eq m hh hov hies

theorem c10_payload_tag_witness :
    Message.createAux (some (.mtHeader sampleMtHeader)) none none [] [.moPayload [7]]
      = Message.createAux (some (.mtHeader sampleMtHeader)) none none [] [.mtPayload [7]]
    ∧ InformationElement.WriteOk (.header c10Message.header)
    ∧ c10Message.length - 3 ≤ 65535
    ∧ encodeMessage c10Message
      = .ok (1 :: u16Bytes (c10Message.length - 3) ++ c10Message.header.bytes
          ++ payloadTag c10Message.header
            :: u16Bytes c10Message.payload.length ++ c10Message.payload
          ++ (match c10Message.location with
              | some l => l.bytes
              | none => [])
          ++ ieListBytes c10Message.information_elements) :=
  ⟨c10_payload_tag.1 (some (.mtHeader sampleMtHeader)) none none [] [7] [],
    by trivial, by decide,
    c10_payload_tag.2.2 c10Message (by trivial) (by decide) (by simp [c10Message, Message.new])⟩

theorem readU16_ok_val {bs r : List Nat} {n : Nat} (h : readU16 bs = .ok (n, r)) :
    n = bs.getD 0 0 * 256 + bs.getD 1 0 := by
  unfold readU16 readExact at h
  simp only [rm_bind_eq, RM.bind, rm_pure_eq, RM.pure] at h
  cases bs with
  | nil => simp at h
  | cons a t =>
    cases t with
    | nil => simp at h
    | cons a2 t2 =>
      rw [if_pos (by simp only [List.length_cons]; omega)] at h
      simp only [List.take, List.drop, Except.ok.injEq, Prod.mk.injEq] at h
      rw [← h.1]
      simp [beCombine, List.getD]

theorem locFromBody_radius {L : Nat} {body rem : List Nat} {ie : InformationElement}
    (h : InformationElement.locFromBody L body = .ok (ie, rem)) :
    ∀ loc, ie = .locationInformation loc → (loc.radius.isSome ↔ L = 11) := by
  unfold InformationElement.locFromBody at h
  simp only [rm_bind_eq, RM.bind] at h
  split at h
  case h_2 => cases h
  case h_1 x flags bsA heqA =>
  split at h
  case h_2 => cases h
  case h_1 y latd bsB heqB =>
  split at h
  case h_2 => cases h
  case h_1 z latm bsC heqC =>
  split at h
  case h_2 => cases h
  case h_1 w lond bsD heqD =>
  split at h
  case h_2 => cases h
  case h_1 v lonm bsE heqE =>
  split at h
  case h_2 => cases h
  case h_1 u rad bsF heqF =>
  simp only [RM.pure, Except.ok.injEq, Prod.mk.injEq] at h
  intro loc hloc
  rw [← h.1] at hloc
  have hrad : loc.radius = rad := by
    cases hloc
    rfl
  rw [hrad]
  unfold InformationElement.readRadius at heqF
  split at heqF
  case isTrue hL =>
    simp only [rm_bind_eq, RM.bind] at heqF
    split at heqF
    case h_2 => cases heqF
    case h_1 q rq bsG heqG =>
      simp only [rm_bind_eq, RM.bind, rm_pure_eq, RM.pure, Except.ok.injEq,
        Prod.mk.injEq] at heqF
      rw [← heqF.1]
      simp [hL]
  case isFalse hL =>
    simp only [rm_pure_eq, RM.pure, Except.ok.injEq, Prod.mk.injEq] at heqF
    rw [← heqF.1]
    simp [hL]

/-- C4: when the dispatcher successfully decodes a location element, the
radius is present exactly when the declared 16-bit length (the second and
third bytes of the element, big-endian) equals 11, and absent for every other
declared length; the resulting element reports len 14 with the radius and 10
without it, including the 3-byte tag-and-length prefix. -/
theorem c4_radius_from_declared_length (bs rest : List Nat)
    (loc : mo.LocationInformation)
    (h : InformationElement.read_single bs = .ok (.locationInformation loc, rest)) :
    (loc.radius.isSome ↔ bs.getD 1 0 * 256 + bs.getD 2 0 = 11)
      ∧ loc.len = (if loc.radius.isSome then 14 else 10) := by
  refine ⟨?_, by cases hr : loc.radius <;> simp [mo.LocationInformation.len, hr]⟩
  unfold InformationElement.read_single at h
  simp only [rm_bind_eq, RM.bind] at h
  cases bs with
  | nil => simp [readU8] at h
  | cons b0 tl =>
    simp only [readU8] at h
    split at h
    case h_2 => simp at h
    case h_1 x L r2 hrd =>
    have hLval : L = tl.getD 0 0 * 256 + tl.getD 1 0 := readU16_ok_val hrd
    by_cases h1 : b0 = 1
    · rw [if_pos h1] at h
      simp only [RM.bind] at h
      cases hx : mo.Header.read_from r2 with
      | error e => rw [hx] at h; simp at h
      | ok p =>
        rw [hx] at h
        obtain ⟨hh, hr⟩ := p
        simp [rm_pure_eq, RM.pure] at h
    rw [if_neg h1] at h
    by_cases h2 : b0 = 65
    · rw [if_pos h2] at h
      simp only [RM.bind] at h
      cases hx : mt.Header.read_from r2 with
      | error e => rw [hx] at h; simp at h
      | ok p =>
        rw [hx] at h
        obtain ⟨hh, hr⟩ := p
        simp [rm_pure_eq, RM.pure] at h
    rw [if_neg h2] at h
    by_cases h3 : b0 = 2 ∨ b0 = 66
    · rw [if_pos h3] at h
      simp only [RM.bind] at h
      cases hx : readExact L r2 with
      | error e => rw [hx] at h; simp at h
      | ok p =>
        rw [hx] at h
        obtain ⟨pl, hr⟩ := p
        by_cases h4 : b0 = 2 <;> simp [h4, rm_pure_eq, RM.pure] at h
    rw [if_neg h3] at h
    by_cases h5 : b0 = 3
    · rw [if_pos h5] at h
      simp only [RM.bind] at h
      cases hx : readExact L r2 with
      | error e => rw [hx] at h; simp at h
      | ok p =>
        rw [hx] at h
        obtain ⟨body, r3⟩ := p
        dsimp only at h
        cases hlb : InformationElement.locFromBody L body with
        | error e =>
          rw [hlb] at h
          simp [RM.ofExcept, Except.map] at h
        | ok p2 =>
          obtain ⟨ie0, rem⟩ := p2
          rw [hlb] at h
          simp only [RM.ofExcept, Except.map, Except.ok.injEq, Prod.mk.injEq] at h
          have hiff := locFromBody_radius hlb loc h.1
          rw [hiff, hLval]
          simp [List.getD]
    rw [if_neg h5] at h
    by_cases h6 : b0 = 68
    · rw [if_pos h6] at h
      simp only [RM.bind] at h
      cases hx : mt.ConfirmationStatus.read_from r2 with
      | error e => rw [hx] at h; simp at h
      | ok p =>
        rw [hx] at h
        obtain ⟨hs, hr⟩ := p
        simp [rm_pure_eq, RM.pure] at h
    rw [if_neg h6] at h
    by_cases h7 : b0 = 5
    · rw [if_pos h7] at h
      simp only [RM.bind] at h
      cases hx : mo.ConfirmationStatus.read_from r2 with
      | error e => rw [hx] at h; simp at h
      | ok p =>
        rw [hx] at h
        obtain ⟨hs, hr⟩ := p
        simp [rm_pure_eq, RM.pure] at h
    rw [if_neg h7] at h
    simp [RM.throw] at h

theorem c4_radius_witness :
    InformationElement.read_single ([3, 0, 8] ++ List.replicate 8 0)
      = .ok (.locationInformation (mo.LocationInformation.new 0 (0, 0) (0, 0) none), [])
    ∧ ((mo.LocationInformation.new 0 (0, 0) (0, 0) none).radius.isSome
        ↔ ([3, 0, 8] ++ List.replicate 8 0).getD 1 0 * 256
          + ([3, 0, 8] ++ List.replicate 8 0).getD 2 0 = 11)
    ∧ (mo.LocationInformation.new 0 (0, 0) (0, 0) none).len
      = (if (mo.LocationInformation.new 0 (0, 0) (0, 0) none).radius.isSome
          then 14 else 10) :=
  ⟨by decide,
    (c4_radius_from_declared_length ([3, 0, 8] ++ List.replicate 8 0) []
      (mo.LocationInformation.new 0 (0, 0) (0, 0) none) (by decide)).1,
    (c4_radius_from_declared_length ([3, 0, 8] ++ List.replicate 8 0) []
      (mo.LocationInformation.new 0 (0, 0) (0, 0) none) (by decide)).2⟩

theorem readExact_err (n : Nat) (bs : List Nat) (h : bs.length < n) :
    readExact n bs = .error .io := by
  unfold readExact
  rw [if_neg (by omega)]

theorem readExact_ok_form (n : Nat) (bs : List Nat) (h : n ≤ bs.length) :
    readExact n bs = .ok (bs.take n, bs.drop n) := by
  unfold readExact
  rw [if_pos h]

theorem readU8_err_nil : readU8 [] = .error .io := rfl

theorem readU8_error_io {bs : List Nat} {e : Error} (h : readU8 bs = .error e) :
    e = .io := by
  cases bs with
  | nil =>
    simp only [readU8, Except.error.injEq] at h
    rw [← h]
  | cons a t => simp [readU8] at h

theorem readU8_ok_len {bs r : List Nat} {b : Nat} (h : readU8 bs = .ok (b, r)) :
    r.length + 1 = bs.length := by
  cases bs with
  | nil => simp [readU8] at h
  | cons a t =>
    simp only [readU8, Except.ok.injEq, Prod.mk.injEq] at h
    simp [← h.2]

theorem readU16_err (bs : List Nat) (h : bs.length < 2) : readU16 bs = .error .io := by
  unfold readU16
  simp only [rm_bind_eq, RM.bind]
  rw [readExact_err 2 bs h]

theorem readU16_ok_form (bs : List Nat) (h : 2 ≤ bs.length) :
    readU16 bs = .ok (beCombine (bs.take 2), bs.drop 2) := by
  unfold readU16
  simp only [rm_bind_eq, RM.bind]
  rw [readExact_ok_form 2 bs h]
  rfl

theorem readU32_err (bs : List Nat) (h : bs.length < 4) : readU32 bs = .error .io := by
  unfold readU32
  simp only [rm_bind_eq, RM.bind]
  rw [readExact_err 4 bs h]

theorem readU32_ok_form (bs : List Nat) (h : 4 ≤ bs.length) :
    readU32 bs = .ok (beCombine (bs.take 4), bs.drop 4) := by
  unfold readU32
  simp only [rm_bind_eq, RM.bind]
  rw [readExact_ok_form 4 bs h]
  rfl

theorem readI16_err (bs : List Nat) (h : bs.length < 2) : readI16 bs = .error .io := by
  unfold readI16
  simp only [rm_bind_eq, RM.bind]
  rw [readU16_err bs h]

theorem new_error_unknown {n : Nat} {e : Error} (h : mo.SessionStatus.new n = .error e) :
    e = .unknownSessionStatus n := by
  unfold mo.SessionStatus.new at h
  repeat' split at h
  all_goals simp_all

/-- A truncated MO-header body fails: with an io error, or with the
unknown-session-status error when the status byte was reached but invalid. -/
theorem mo_header_read_trunc (bs : List Nat) (h : bs.length < 28) :
    isTruncErr (mo.Header.read_from bs) := by
  unfold mo.Header.read_from
  simp only [rm_bind_eq, RM.bind]
  by_cases h4 : bs.length < 4
  · rw [readU32_err bs h4]
    trivial
  · rw [readU32_ok_form bs (by omega)]
    dsimp only
    by_cases h15 : (bs.drop 4).length < 15
    · rw [readExact_err 15 _ h15]
      trivial
    · rw [readExact_ok_form 15 _ (by omega)]
      dsimp only
      cases hx : readU8 ((bs.drop 4).drop 15) with
      | error e =>
        dsimp only
        rw [readU8_error_io hx]
        trivial
      | ok p =>
        obtain ⟨sb, r⟩ := p
        dsimp only
        cases hs : mo.SessionStatus.new sb with
        | error e =>
          simp only [RM.ofExcept, Except.map]
          rw [new_error_unknown hs]
          trivial
        | ok st =>
          simp only [RM.ofExcept, Except.map]
          have hrl : r.length + 1 = ((bs.drop 4).drop 15).length := readU8_ok_len hx
          simp only [List.length_drop] at hrl h15
          by_cases hm : r.length < 2
          · rw [readU16_err r hm]
            trivial
          · rw [readU16_ok_form r (by omega)]
            dsimp only
            by_cases hm2 : (r.drop 2).length < 2
            · rw [readU16_err _ hm2]
              trivial
            · rw [readU16_ok_form _ (by omega)]
              dsimp only
              rw [readU32_err _ (by simp only [List.length_drop]; omega)]
              trivial

theorem mt_header_read_trunc (bs : List Nat) (h : bs.length < 21) :
    mt.Header.read_from bs = .error .io := by
  unfold mt.Header.read_from
  simp only [rm_bind_eq, RM.bind]
  by_cases h4 : bs.length < 4
  · rw [readU32_err bs h4]
  · rw [readU32_ok_form bs (by omega)]
    dsimp only
    by_cases h15 : (bs.drop 4).length < 15
    · rw [readExact_err 15 _ h15]
    · rw [readExact_ok_form 15 _ (by omega)]
      dsimp only
      rw [readU16_err _ (by simp only [List.length_drop] at *; omega)]

theorem mt_status_read_trunc (bs : List Nat) (h : bs.length < 25) :
    mt.ConfirmationStatus.read_from bs = .error .io := by
  unfold mt.ConfirmationStatus.read_from
  simp only [rm_bind_eq, RM.bind]
  by_cases h4 : bs.length < 4
  · rw [readU32_err bs h4]
  · rw [readU32_ok_form bs (by omega)]
    dsimp only
    by_cases h15 : (bs.drop 4).length < 15
    · rw [readExact_err 15 _ h15]
    · rw [readExact_ok_form 15 _ (by omega)]
      dsimp only
      by_cases h42 : ((bs.drop 4).drop 15).length < 4
      · rw [readU32_err _ h42]
      · rw [readU32_ok_form _ (by omega)]
        dsimp only
        rw [readI16_err _ (by simp only [List.length_drop] at *; omega)]

theorem mo_status_read_trunc (bs : List Nat) (h : bs.length < 1) :
    mo.ConfirmationStatus.read_from bs = .error .io := by
  unfold mo.ConfirmationStatus.read_from
  simp only [rm_bind_eq, RM.bind]
  cases bs with
  | nil => rfl
  | cons a t => simp at h

theorem beCombine_two (a b : Nat) : beCombine [a, b] = a * 256 + b := by
  simp [beCombine]

theorem RMbind_ok (x : RM α) (f : α → RM β) (bs : List Nat) {a : α} {r : List Nat}
    (hx : x bs = .ok (a, r)) : RM.bind x f bs = f a r := by
  unfold RM.bind
  rw [hx]

theorem RMbind_err (x : RM α) (f : α → RM β) (bs : List Nat) {e : Error}
    (hx : x bs = .error e) : RM.bind x f bs = .error e := by
  unfold RM.bind
  rw [hx]

theorem isTruncErr_RMbind (x : RM α) (f : α → RM β) (bs : List Nat)
    (hx : isTruncErr (x bs)) : isTruncErr (RM.bind x f bs) := by
  unfold RM.bind
  cases hxv : x bs with
  | error e =>
    rw [hxv] at hx
    split
    · simp_all
    · rename_i heq
      injection heq with he
      rw [← he]
      cases e <;> simp_all [isTruncErr]
  | ok p =>
    rw [hxv] at hx
    simp [isTruncErr] at hx

/-- C8 (amended): a buffer that ends before the full body the dispatcher must
consume fails cleanly.  When fewer than the 3 tag-and-length bytes remain,
read_single fails with an io error; when the tag is recognized but fewer body
bytes remain than the required size (the declared length for payloads and
locations, the fixed size for headers and statuses), read_single fails with
an io error, except that an MO-header element truncated after an invalid
session-status byte fails with the unknown-session-status error; and parse
fails with an io error when the stream ends before the declared overall
length. -/
theorem c8_truncated_input_fails :
    (∀ bs : List Nat, bs.length < 3 →
      InformationElement.read_single bs = .error .io)
    ∧ (∀ iei b1 b2 n : Nat, ∀ rest : List Nat,
      requiredLen iei (b1 * 256 + b2) = some n → rest.length < n →
      isTruncErr (InformationElement.read_single (iei :: b1 :: b2 :: rest)))
    ∧ (∀ b1 b2 : Nat, ∀ rest : List Nat, rest.length < b1 * 256 + b2 →
      InformationElement.parse (1 :: b1 :: b2 :: rest) = .error .io) := by
  refine ⟨?_, ?_, ?_⟩
  · intro bs hlen
    match bs with
    | [] => rfl
    | [b] => rfl
    | [b, c] => rfl
    | b :: c :: d :: t => simp only [List.length_cons] at hlen; omega
  · intro iei b1 b2 n rest hreq hlen
    unfold InformationElement.read_single
    simp only [rm_bind_eq]
    rw [RMbind_ok readU8 _ _ (show readU8 (iei :: b1 :: b2 :: rest)
      = .ok (iei, b1 :: b2 :: rest) from rfl)]
    rw [RMbind_ok readU16 _ _ (readU16_ok_form (b1 :: b2 :: rest)
      (by simp only [List.length_cons]; omega))]
    simp only [List.take_succ_cons, List.take_zero, List.drop_succ_cons,
      List.drop_zero]
    rw [beCombine_two]
    unfold requiredLen at hreq
    by_cases h1 : iei = 1
    · subst h1
      rw [if_pos rfl] at hreq ⊢
      simp only [Option.some.injEq] at hreq
      exact isTruncErr_RMbind _ _ _ (mo_header_read_trunc rest (by omega))
    rw [if_neg h1] at hreq ⊢
    by_cases h2 : iei = 65
    · subst h2
      rw [if_pos rfl] at hreq ⊢
      simp only [Option.some.injEq] at hreq
      rw [RMbind_err _ _ _ (mt_header_read_trunc rest (by omega))]
      trivial
    rw [if_neg h2] at hreq ⊢
    by_cases h3 : iei = 2 ∨ iei = 66
    · rw [if_pos h3] at hreq ⊢
      simp only [Option.some.injEq] at hreq
      rw [RMbind_err _ _ _ (readExact_err (b1 * 256 + b2) rest (by omega))]
      trivial
    rw [if_neg h3] at hreq ⊢
    by_cases h5 : iei = 3
    · subst h5
      rw [if_pos rfl] at hreq ⊢
      simp only [Option.some.injEq] at hreq
      rw [RMbind_err _ _ _ (readExact_err (b1 * 256 + b2) rest (by omega))]
      trivial
    rw [if_neg h5] at hreq ⊢
    by_cases h6 : iei = 68
    · subst h6
      rw [if_pos rfl] at hreq ⊢
      simp only [Option.some.injEq] at hreq
      rw [RMbind_err _ _ _ (mt_status_read_trunc rest (by omega))]
      trivial
    rw [if_neg h6] at hreq ⊢
    by_cases h7 : iei = 5
    · subst h7
      rw [if_pos rfl] at hreq ⊢
      simp only [Option.some.injEq] at hreq
      rw [RMbind_err _ _ _ (mo_status_read_trunc rest (by omega))]
      trivial
    rw [if_neg h7] at hreq
    cases hreq
  · intro b1 b2 rest hlen
    unfold InformationElement.parse
    simp only [rm_bind_eq]
    rw [RMbind_ok readU8 _ _ (show readU8 (1 :: b1 :: b2 :: rest)
      = .ok (1, b1 :: b2 :: rest) from rfl)]
    rw [if_neg (by simp)]
    rw [RMbind_ok readU16 _ _ (readU16_ok_form (b1 :: b2 :: rest)
      (by simp only [List.length_cons]; omega))]
    simp only [List.take_succ_cons, List.take_zero, List.drop_succ_cons,
      List.drop_zero]
    rw [beCombine_two]
    exact RMbind_err _ _ _ (readExact_err (b1 * 256 + b2) rest hlen)

theorem c8_truncated_input_fails_witness :
    (([6] : List Nat).length < 3
      ∧ InformationElement.read_single [6] = .error .io)
    ∧ (requiredLen 2 (0 * 256 + 5) = some 5 ∧ ([1, 2] : List Nat).length < 5
      ∧ isTruncErr (InformationElement.read_single [2, 0, 5, 1, 2]))
    ∧ (([0] : List Nat).length < 0 * 256 + 5
      ∧ InformationElement.parse [1, 0, 5, 0] = .error .io) :=
  ⟨⟨by decide, c8_truncated_input_fails.1 [6] (by decide)⟩,
    ⟨by decide, by decide,
      c8_truncated_input_fails.2.1 2 0 5 5 [1, 2] (by decide) (by decide)⟩,
    ⟨by decide, c8_truncated_input_fails.2.2 0 5 [0] (by decide)⟩⟩

/-- C8 (counterexample): the claim as stated is false: an MO-header element
whose body is truncated to 20 of its declared 28 bytes, with an invalid
session-status byte as the last byte present, makes read_single fail with the
unknown-session-status error rather than an io error. -/
theorem c8_counterexample :
    (truncatedMoHeaderInput.drop 3).length < 28
      ∧ InformationElement.read_single truncatedMoHeaderInput
        = .error (.unknownSessionStatus 255)
      ∧ Error.unknownSessionStatus 255 ≠ Error.io :=
  ⟨by decide, by decide, by decide⟩

end SbdLib

